import Mathlib

/-!
Shallow embedding of the fast-osm-raster-render tile server
(`src/data/types.rs`, `src/data/serialization.rs`, `src/data/mmap.rs`,
`src/data/spatial.rs`, `src/data/loader.rs`, `src/projection.rs`,
`src/renderer/renderer.rs`), together with theorems settling the spec claims.

Modelling conventions:
* Rust `u32`/`u64`/`i64` values are `ℕ` with explicit `% 2^32` / `% 2^64`
  wherever the fixed-width type forces a wrap (release-build semantics;
  debug builds would panic at the same inputs, which breaks the affected
  claims just the same).
* `f64` values are modelled as real numbers for the projection math and for
  geometry comparisons; byte-level serialization instead works on the 64-bit
  bit patterns of the stored doubles, represented as `ℕ < 2^64`, since the
  on-disk format is a bit-for-bit contract.
* Geometry records (`Point`, `BoundingBox`, `MapObject`) are polymorphic in
  the scalar type: the renderer instantiates them at `ℝ`, the serializer at
  `ℕ` (bit patterns).
-/

namespace OsmRender

/-! ### Tiles (`src/data/types.rs`) -/

/-- `Tile` from `types.rs`: slippy-map tile coordinates, fields are `u32`. -/
structure Tile where
  x : ℕ
  y : ℕ
  z : ℕ
deriving DecidableEq, Repr

/-- `Tile::index` from `types.rs`.  The loop accumulates
`total += 4u64.pow(z)` in `u64` arithmetic, and `level_pos` is computed as
`self.y * 2u32.pow(self.z) + self.x` in `u32` arithmetic (so it wraps modulo
`2^32` before the `as u64` cast); the final sum is a `u64`. -/
def Tile.index (t : Tile) : ℕ :=
  let total := (List.range t.z).foldl (fun a k => (a + 4 ^ k % 2 ^ 64) % 2 ^ 64) 0
  let level_pos := (t.y * (2 ^ t.z % 2 ^ 32) + t.x) % 2 ^ 32
  (total + level_pos) % 2 ^ 64

/-- `Tile::get_parent` from `types.rs`. -/
def Tile.get_parent (t : Tile) : Option Tile :=
  if t.z = 0 then none
  else some ⟨t.x / 2, t.y / 2, t.z - 1⟩

/-- `Tile::get_ancestor` from `types.rs`.  The shifts `self.x >> levels_up`
are `u32` shifts: Rust masks the shift amount modulo the bit width (32) in
release builds (debug builds panic when `levels_up ≥ 32`); release
semantics are modelled, consistently with `Tile.index`. -/
def Tile.get_ancestor (t : Tile) (target_z : ℕ) : Option Tile :=
  if target_z > t.z then none
  else if target_z = t.z then some t
  else
    let levels_up := t.z - target_z
    some ⟨t.x >>> (levels_up % 32), t.y >>> (levels_up % 32), target_z⟩

/-- `total_tiles(0..z) = Σ_{k=0}^{z-1} 4^k`, the closed form used by the
spec to describe the quadtree linear index. -/
def total_tiles (z : ℕ) : ℕ := ∑ k ∈ Finset.range z, 4 ^ k

/-! ### Geometry (`src/data/types.rs`), generic over the scalar type -/

/-- `Point` from `types.rs` (`lon`, `lat` are `f64` in the source). -/
structure Point (α : Type) where
  lon : α
  lat : α
deriving DecidableEq, Repr

/-- `BoundingBox` from `types.rs`. -/
structure BoundingBox (α : Type) where
  min : Point α
  max : Point α
deriving DecidableEq, Repr

/-- `BoundingBox::contains` from `types.rs`. -/
def BoundingBox.contains [LinearOrder α] (b : BoundingBox α) (p : Point α) : Bool :=
  decide (p.lat ≥ b.min.lat) && decide (p.lat ≤ b.max.lat) &&
  decide (p.lon ≥ b.min.lon) && decide (p.lon ≤ b.max.lon)

/-- `BoundingBox::overlaps` from `types.rs`. -/
def BoundingBox.overlaps [LinearOrder α] (b other : BoundingBox α) : Bool :=
  decide (b.min.lat ≤ other.max.lat) && decide (b.max.lat ≥ other.min.lat) &&
  decide (b.min.lon ≤ other.max.lon) && decide (b.max.lon ≥ other.min.lon)

/-- The value of `f64::MAX`, `(2 - 2^-52) * 2^1023`, as a rational real.
Every finite `f64` lies in `[-f64_max, f64_max]`. -/
noncomputable def f64_max : ℝ := (2 ^ 53 - 1) * 2 ^ 971

/-- `BoundingBox::from_points` from `types.rs`: folds `min`/`max` over the
point list starting from the sentinels `f64::MAX` / `f64::MIN = -f64::MAX`. -/
noncomputable def BoundingBox.from_points (points : List (Point ℝ)) :
    Option (BoundingBox ℝ) :=
  if points.isEmpty then none
  else
    let s := points.foldl
      (fun (s : ℝ × ℝ × ℝ × ℝ) p =>
        (Min.min s.1 p.lon, Min.min s.2.1 p.lat,
         Max.max s.2.2.1 p.lon, Max.max s.2.2.2 p.lat))
      (f64_max, f64_max, -f64_max, -f64_max)
    some ⟨⟨s.1, s.2.1⟩, ⟨s.2.2.1, s.2.2.2⟩⟩

/-- `MapObject` from `types.rs`: one way's geometry. -/
structure MapObject (α : Type) where
  bounding_box : BoundingBox α
  points : List (Point α)
deriving DecidableEq, Repr

end OsmRender

namespace OsmRender

/-! ### Quick sanity theorems for the tile index (mirror of the unit tests) -/

theorem tile_index_unit_tests :
    (Tile.mk 0 0 0).index = 0 ∧ (Tile.mk 0 0 1).index = 1 ∧
    (Tile.mk 1 0 1).index = 2 ∧ (Tile.mk 0 1 1).index = 3 ∧
    (Tile.mk 1 1 1).index = 4 ∧ (Tile.mk 0 0 2).index = 5 := by
  decide

/-! ### Helper lemmas about `Tile.index` in the non-wrapping range -/

theorem total_tiles_lt (z : ℕ) : total_tiles z < 4 ^ z := by
  induction z with
  | zero => simp [total_tiles]
  | succ n ih =>
      have : total_tiles (n + 1) = total_tiles n + 4 ^ n := by
        simp [total_tiles, Finset.sum_range_succ]
      rw [this]
      have h4 : (4 : ℕ) ^ (n + 1) = 4 ^ n * 4 := by ring
      omega

theorem total_tiles_mono {a b : ℕ} (h : a ≤ b) : total_tiles a ≤ total_tiles b := by
  unfold total_tiles
  exact Finset.sum_le_sum_of_subset (Finset.range_subset.mpr h)

/-- In the range where no `u32`/`u64` wrap can occur (`z ≤ 16`,
`x, y < 2^z`), `Tile.index` computes the exact mathematical value. -/
theorem Tile.index_eq_of_le (t : Tile) (hx : t.x < 2 ^ t.z) (hy : t.y < 2 ^ t.z)
    (hz : t.z ≤ 16) : t.index = total_tiles t.z + t.y * 2 ^ t.z + t.x := by
  have hfold : ∀ n : ℕ, n ≤ 32 →
      (List.range n).foldl (fun a k => (a + 4 ^ k % 2 ^ 64) % 2 ^ 64) 0
        = total_tiles n := by
    intro n hn
    induction n with
    | zero => simp [total_tiles]
    | succ m ih =>
        have hm : m ≤ 32 := by omega
        have hm31 : m ≤ 31 := by omega
        have hrec := ih hm
        rw [List.range_succ, List.foldl_append, hrec]
        have hsum : total_tiles (m + 1) = total_tiles m + 4 ^ m := by
          simp [total_tiles, Finset.sum_range_succ]
        have h2 : (4 : ℕ) ^ m ≤ 4 ^ 31 := Nat.pow_le_pow_right (by norm_num) hm31
        have h3 : (4 : ℕ) ^ 31 = 2 ^ 62 := by norm_num
        have h1 : total_tiles m < 4 ^ m := total_tiles_lt m
        have hlt : total_tiles m + 4 ^ m < 2 ^ 64 := by omega
        have hterm : (4 : ℕ) ^ m % 2 ^ 64 = 4 ^ m := by
          apply Nat.mod_eq_of_lt
          omega
        simp only [List.foldl_cons, List.foldl_nil]
        rw [hterm, hsum, Nat.mod_eq_of_lt hlt]
  unfold Tile.index
  have h1 : (List.range t.z).foldl (fun a k => (a + 4 ^ k % 2 ^ 64) % 2 ^ 64) 0
      = total_tiles t.z := hfold t.z (by omega)
  have hp : (2 : ℕ) ^ t.z % 2 ^ 32 = 2 ^ t.z := by
    apply Nat.mod_eq_of_lt
    exact Nat.pow_lt_pow_right (by norm_num) (by omega)
  have hlp : t.y * 2 ^ t.z + t.x < 2 ^ 32 := by
    have h6 : (t.y + 1) * 2 ^ t.z ≤ 2 ^ t.z * 2 ^ t.z :=
      Nat.mul_le_mul_right _ (by omega)
    rw [Nat.succ_mul] at h6
    have h4 : (2 : ℕ) ^ t.z * 2 ^ t.z ≤ 2 ^ 16 * 2 ^ 16 :=
      Nat.mul_le_mul (Nat.pow_le_pow_right (by norm_num) hz)
        (Nat.pow_le_pow_right (by norm_num) hz)
    have h5 : (2 : ℕ) ^ 16 * 2 ^ 16 = 2 ^ 32 := by norm_num
    omega
  have htot : total_tiles t.z + (t.y * 2 ^ t.z + t.x) < 2 ^ 64 := by
    have h1 : total_tiles t.z < 4 ^ t.z := total_tiles_lt t.z
    have h2 : (4 : ℕ) ^ t.z ≤ 4 ^ 16 := Nat.pow_le_pow_right (by norm_num) hz
    have h3 : (4 : ℕ) ^ 16 < 2 ^ 64 := by norm_num
    have h4 : (2 : ℕ) ^ 32 < 2 ^ 64 := by norm_num
    omega
  simp only [h1, hp, Nat.mod_eq_of_lt hlp, Nat.mod_eq_of_lt htot]
  omega

theorem level_pos_lt {x y z : ℕ} (hx : x < 2 ^ z) (hy : y < 2 ^ z) :
    y * 2 ^ z + x < 4 ^ z := by
  have h6 : (y + 1) * 2 ^ z ≤ 2 ^ z * 2 ^ z := Nat.mul_le_mul_right _ (by omega)
  rw [Nat.succ_mul] at h6
  have h4 : (2 : ℕ) ^ z * 2 ^ z = 4 ^ z := by
    rw [← Nat.mul_pow]
  omega

theorem total_tiles_add_inj {z₁ z₂ p₁ p₂ : ℕ} (h₁ : p₁ < 4 ^ z₁) (h₂ : p₂ < 4 ^ z₂)
    (h : total_tiles z₁ + p₁ = total_tiles z₂ + p₂) : z₁ = z₂ ∧ p₁ = p₂ := by
  have key : ∀ a b pa pb : ℕ, a < b → pa < 4 ^ a →
      total_tiles a + pa < total_tiles b + pb := by
    intro a b pa pb hab hpa
    have hsucc : total_tiles (a + 1) = total_tiles a + 4 ^ a := by
      simp [total_tiles, Finset.sum_range_succ]
    have hmono := total_tiles_mono (show a + 1 ≤ b by omega)
    omega
  rcases lt_trichotomy z₁ z₂ with hlt | heq | hgt
  · exact absurd h (Nat.ne_of_lt (key _ _ _ _ hlt h₁))
  · subst heq
    exact ⟨rfl, by omega⟩
  · exact absurd h.symm (Nat.ne_of_lt (key _ _ _ _ hgt h₂))

/-- C1 (amended): for tiles with `0 ≤ x, y < 2^z` and zoom `z ≤ 16`,
`Tile::index` equals `total_tiles(0..z) + y·2^z + x` and is injective (no two
distinct such tiles share an index).  The restriction `z ≤ 16` is forced:
the source computes `y * 2^z + x` in `u32` arithmetic, which wraps modulo
`2^32` from zoom 17 on (see the counterexample). -/
theorem claim_C1 (t₁ t₂ : Tile)
    (hx₁ : t₁.x < 2 ^ t₁.z) (hy₁ : t₁.y < 2 ^ t₁.z) (hz₁ : t₁.z ≤ 16)
    (hx₂ : t₂.x < 2 ^ t₂.z) (hy₂ : t₂.y < 2 ^ t₂.z) (hz₂ : t₂.z ≤ 16) :
    t₁.index = total_tiles t₁.z + t₁.y * 2 ^ t₁.z + t₁.x ∧
    (t₁.index = t₂.index → t₁ = t₂) := by
  refine ⟨Tile.index_eq_of_le t₁ hx₁ hy₁ hz₁, fun heq => ?_⟩
  rw [Tile.index_eq_of_le t₁ hx₁ hy₁ hz₁, Tile.index_eq_of_le t₂ hx₂ hy₂ hz₂] at heq
  have hdec := total_tiles_add_inj (level_pos_lt hx₁ hy₁) (level_pos_lt hx₂ hy₂)
    (by omega)
  obtain ⟨hz, hp⟩ := hdec
  rw [← hz] at hx₂ hp
  have m₁ : (t₁.y * 2 ^ t₁.z + t₁.x) % 2 ^ t₁.z = t₁.x := by
    rw [Nat.add_comm, Nat.add_mul_mod_self_right, Nat.mod_eq_of_lt hx₁]
  have m₂ : (t₂.y * 2 ^ t₁.z + t₂.x) % 2 ^ t₁.z = t₂.x := by
    rw [Nat.add_comm, Nat.add_mul_mod_self_right, Nat.mod_eq_of_lt hx₂]
  have hxx : t₁.x = t₂.x := by
    rw [← m₁, ← m₂, hp]
  have hyy : t₁.y = t₂.y := by
    have h2 : t₁.y * 2 ^ t₁.z = t₂.y * 2 ^ t₁.z := by omega
    exact Nat.eq_of_mul_eq_mul_right (Nat.pos_pow_of_pos _ (by norm_num)) h2
  cases t₁; cases t₂
  simp_all

/-- Witness for C1 at the concrete tiles `(1,0,1)` and `(0,1,1)`. -/
theorem claim_C1_witness :
    ((1 : ℕ) < 2 ^ 1 ∧ (0 : ℕ) < 2 ^ 1 ∧ (1 : ℕ) ≤ 16) ∧
    (Tile.mk 1 0 1).index = total_tiles 1 + 0 * 2 ^ 1 + 1 ∧
    ((Tile.mk 1 0 1).index = (Tile.mk 0 1 1).index →
      Tile.mk 1 0 1 = Tile.mk 0 1 1) :=
  ⟨by decide,
   claim_C1 (Tile.mk 1 0 1) (Tile.mk 0 1 1) (by decide) (by decide) (by decide)
     (by decide) (by decide) (by decide)⟩

/-- Counterexample to C1 as stated: at zoom 17 the `u32` computation of
`y·2^z + x` wraps modulo `2^32`, so the valid tiles `(0, 32768, 17)` and
`(0, 0, 17)` receive the same index, and the formula
`total_tiles + y·2^z + x` is not reproduced. -/
theorem claim_C1_counterexample :
    (Tile.mk 0 32768 17).x < 2 ^ 17 ∧ (Tile.mk 0 32768 17).y < 2 ^ 17 ∧
    (Tile.mk 0 0 17).x < 2 ^ 17 ∧ (Tile.mk 0 0 17).y < 2 ^ 17 ∧
    (Tile.mk 0 32768 17).index = (Tile.mk 0 0 17).index ∧
    Tile.mk 0 32768 17 ≠ Tile.mk 0 0 17 ∧
    (Tile.mk 0 32768 17).index ≠ total_tiles 17 + 32768 * 2 ^ 17 + 0 := by
  decide

/-- C9 (amended): `get_ancestor(target_z)` is absent exactly when
`target_z > z`; otherwise, provided `z - target_z < 32`, it returns the tile
`(x >> (z - target_z), y >> (z - target_z), target_z)`, and `get_ancestor(z)`
is the tile itself.  The restriction `z - target_z < 32` is forced: the
source shifts `u32` values, so a shift amount of 32 or more masks modulo 32
in release builds (and panics in debug) instead of producing the stated
right-shift — see the counterexample. -/
theorem claim_C9 (t : Tile) (target_z : ℕ) :
    (t.get_ancestor target_z = none ↔ t.z < target_z) ∧
    (target_z ≤ t.z → t.z - target_z < 32 →
      t.get_ancestor target_z =
        some ⟨t.x >>> (t.z - target_z), t.y >>> (t.z - target_z), target_z⟩) ∧
    t.get_ancestor t.z = some t := by
  have hmain : ∀ tz : ℕ, tz ≤ t.z → t.z - tz < 32 →
      t.get_ancestor tz = some ⟨t.x >>> (t.z - tz), t.y >>> (t.z - tz), tz⟩ := by
    intro tz h hlt
    unfold Tile.get_ancestor
    rw [if_neg (by omega)]
    by_cases heq : tz = t.z
    · subst heq
      rw [if_pos rfl]
      cases t
      simp
    · rw [if_neg heq]
      simp only [Nat.mod_eq_of_lt hlt]
  refine ⟨?_, hmain target_z, ?_⟩
  · constructor
    · intro h
      by_contra hc
      unfold Tile.get_ancestor at h
      rw [if_neg (by omega)] at h
      by_cases heq : target_z = t.z
      · rw [if_pos heq] at h
        exact Option.some_ne_none _ h
      · rw [if_neg heq] at h
        exact Option.some_ne_none _ h
    · intro h
      unfold Tile.get_ancestor
      rw [if_pos (by omega)]
  · rw [hmain t.z (le_refl _) (by omega)]
    cases t
    simp

/-- Witness for C9 at the concrete tile `(100, 200, 17)` and `target_z = 15`
(matching the source's own unit test: the ancestor is `(25, 50, 15)`). -/
theorem claim_C9_witness :
    ((15 : ℕ) ≤ 17 ∧ 17 - 15 < 32) ∧
    (Tile.mk 100 200 17).get_ancestor 15 =
      some ⟨100 >>> (17 - 15), 200 >>> (17 - 15), 15⟩ :=
  ⟨by decide, ((claim_C9 (Tile.mk 100 200 17) 15).2.1) (by decide) (by decide)⟩

/-- Counterexample to C9 as stated: for the tile `(2^31, 0, 33)` (valid
`u32` fields, `x < 2^z`) with `target_z = 1`, the shift amount is 32, which
the `u32` shift masks to 0 in release builds, so `get_ancestor` returns
`x = 2^31` unchanged instead of the claimed `2^31 >> 32 = 0` (debug builds
panic instead of returning the claimed value). -/
theorem claim_C9_counterexample :
    (Tile.mk (2 ^ 31) 0 33).get_ancestor 1 = some (Tile.mk (2 ^ 31) 0 1) ∧
    (Tile.mk (2 ^ 31) 0 33).get_ancestor 1 ≠
      some ⟨(2 ^ 31) >>> (33 - 1), 0 >>> (33 - 1), 1⟩ := by
  decide

theorem ancestor_unit_test :
    (Tile.mk 100 200 17).get_ancestor 15 = some (Tile.mk 25 50 15) ∧
    (Tile.mk 10 20 15).get_ancestor 16 = none := by
  decide

/-! ### Binary object store (`src/data/serialization.rs`)

The on-disk format is a bit-for-bit contract, so it is modelled at the byte
level: a file is a `List ℕ` of bytes and each stored `f64` is represented by
its 64-bit bit pattern (a `ℕ < 2^64`), written as 8 little-endian bytes —
exactly what `write_f64::<LittleEndian>` emits.  The point count is written
as `points.len() as i64`, whose byte image is the two's-complement/u64
pattern `len % 2^64`. -/

def BOUNDING_BOX_SIZE : ℕ := 32

def POINTS_LEN_SIZE : ℕ := 8

def POINT_SIZE : ℕ := 16

/-- `map_object_size` from `serialization.rs`. -/
def map_object_size (num_points : ℕ) : ℕ :=
  BOUNDING_BOX_SIZE + POINTS_LEN_SIZE + num_points * POINT_SIZE

/-- The 8 little-endian bytes of a 64-bit word. -/
def w64le (n : ℕ) : List ℕ :=
  [n % 256, n / 256 % 256, n / 256 ^ 2 % 256, n / 256 ^ 3 % 256,
   n / 256 ^ 4 % 256, n / 256 ^ 5 % 256, n / 256 ^ 6 % 256, n / 256 ^ 7 % 256]

/-- Byte image of one point: `lon` then `lat` (16 bytes). -/
def encode_point (p : Point ℕ) : List ℕ := w64le p.lon ++ w64le p.lat

/-- Byte image of a `MapObject`: bounding box (min.lon, min.lat, max.lon,
max.lat), then the `i64` point count, then the points. -/
def encode_map_object (obj : MapObject ℕ) : List ℕ :=
  w64le obj.bounding_box.min.lon ++ w64le obj.bounding_box.min.lat ++
  w64le obj.bounding_box.max.lon ++ w64le obj.bounding_box.max.lat ++
  w64le (obj.points.length % 2 ^ 64) ++ (obj.points.map encode_point).flatten

/-- `write_map_object` from `serialization.rs`: records the current stream
position (the end of the file, since the store is append-only), appends the
byte image, and returns that position as the object's offset. -/
def write_map_object (file : List ℕ) (obj : MapObject ℕ) : List ℕ × ℕ :=
  (file ++ encode_map_object obj, file.length)

/-- One `read_f64::<LittleEndian>` step: consumes 8 bytes or fails at
end-of-file. -/
def read_f64 : List ℕ → Option (ℕ × List ℕ)
  | b0 :: b1 :: b2 :: b3 :: b4 :: b5 :: b6 :: b7 :: rest =>
      some (b0 + 256 * b1 + 256 ^ 2 * b2 + 256 ^ 3 * b3 + 256 ^ 4 * b4 +
            256 ^ 5 * b5 + 256 ^ 6 * b6 + 256 ^ 7 * b7, rest)
  | _ => none

/-- The point-reading loop of `read_map_object`. -/
def read_points : ℕ → List ℕ → Option (List (Point ℕ) × List ℕ)
  | 0, l => some ([], l)
  | n + 1, l =>
      (read_f64 l).bind fun a =>
      (read_f64 a.2).bind fun b =>
      (read_points n b.2).bind fun r =>
      some (⟨a.1, b.1⟩ :: r.1, r.2)

/-- `read_map_object` from `serialization.rs` (the owned-copy path): seeks
to `offset` and decodes bounding box, `i64` point count and points.  A
negative stored count (bit pattern `≥ 2^63`) makes the Rust loop
`for _ in 0..points_len` run zero times. -/
def read_map_object (file : List ℕ) (offset : ℕ) : Option (MapObject ℕ) :=
  (read_f64 (file.drop offset)).bind fun a =>
  (read_f64 a.2).bind fun b =>
  (read_f64 b.2).bind fun c =>
  (read_f64 c.2).bind fun d =>
  (read_f64 d.2).bind fun e =>
  (read_points (if e.1 < 2 ^ 63 then e.1 else 0) e.2).bind fun r =>
  some ⟨⟨⟨a.1, b.1⟩, ⟨c.1, d.1⟩⟩, r.1⟩

/-! ### Zero-copy view (`src/data/mmap.rs`)

`MapObjectView::from_ptr` overlays the fixed layout on raw mapped memory
with no bounds or validity check whatsoever, so its model is a *total*
function: reads past the end of the modelled byte list return junk (zeros
here), standing for whatever bytes follow the mapping.  Under the documented
precondition — at least `40 + 16·N` bytes at the offset, produced by
`write_map_object` — no such junk read ever happens. -/

/-- Unchecked 8-byte read (`*(ptr as *const f64)` in spirit). -/
def view_f64 : List ℕ → ℕ × List ℕ
  | b0 :: b1 :: b2 :: b3 :: b4 :: b5 :: b6 :: b7 :: rest =>
      (b0 + 256 * b1 + 256 ^ 2 * b2 + 256 ^ 3 * b3 + 256 ^ 4 * b4 +
       256 ^ 5 * b5 + 256 ^ 6 * b6 + 256 ^ 7 * b7, rest)
  | _ => (0, [])

/-- Unchecked overlay of `points_len` points
(`std::slice::from_raw_parts`). -/
def view_points : ℕ → List ℕ → List (Point ℕ)
  | 0, _ => []
  | n + 1, l =>
      let a := view_f64 l
      let b := view_f64 a.2
      ⟨a.1, b.1⟩ :: view_points n b.2

/-- `MappedData::read_map_object` / `MapObjectView::from_ptr` from
`mmap.rs`: bounding box at bytes 0–32, `i64` count at 32–40 (reinterpreted
`as usize`, which keeps the 64-bit pattern), points from byte 40 on. -/
def view_map_object (file : List ℕ) (offset : ℕ) : MapObject ℕ :=
  let a := view_f64 (file.drop offset)
  let b := view_f64 a.2
  let c := view_f64 b.2
  let d := view_f64 c.2
  let e := view_f64 d.2
  ⟨⟨⟨a.1, b.1⟩, ⟨c.1, d.1⟩⟩, view_points e.1 e.2⟩

/-- Well-formed stored object: every scalar is a 64-bit pattern and the
point count fits in `i64` (both automatic for objects coming from real
`f64` data). -/
def MapObject.wf (obj : MapObject ℕ) : Prop :=
  obj.bounding_box.min.lon < 2 ^ 64 ∧ obj.bounding_box.min.lat < 2 ^ 64 ∧
  obj.bounding_box.max.lon < 2 ^ 64 ∧ obj.bounding_box.max.lat < 2 ^ 64 ∧
  (∀ p ∈ obj.points, p.lon < 2 ^ 64 ∧ p.lat < 2 ^ 64) ∧
  obj.points.length < 2 ^ 63

instance (obj : MapObject ℕ) : Decidable obj.wf := by
  unfold MapObject.wf
  infer_instance

theorem w64le_length (n : ℕ) : (w64le n).length = 8 := rfl

theorem read_f64_w64le (n : ℕ) (hn : n < 2 ^ 64) (rest : List ℕ) :
    read_f64 (w64le n ++ rest) = some (n, rest) := by
  simp only [w64le, List.cons_append, List.nil_append, read_f64]
  refine congrArg some (Prod.ext ?_ rfl)
  show _ = n
  omega

theorem view_f64_w64le (n : ℕ) (hn : n < 2 ^ 64) (rest : List ℕ) :
    view_f64 (w64le n ++ rest) = (n, rest) := by
  simp only [w64le, List.cons_append, List.nil_append, view_f64]
  refine Prod.ext ?_ rfl
  show _ = n
  omega

theorem read_points_encode (ps : List (Point ℕ))
    (h : ∀ p ∈ ps, p.lon < 2 ^ 64 ∧ p.lat < 2 ^ 64) (rest : List ℕ) :
    read_points ps.length ((ps.map encode_point).flatten ++ rest) =
      some (ps, rest) := by
  induction ps with
  | nil => simp [read_points]
  | cons p ps ih =>
      have hp := h p (List.mem_cons_self p ps)
      have hps : ∀ q ∈ ps, q.lon < 2 ^ 64 ∧ q.lat < 2 ^ 64 :=
        fun q hq => h q (List.mem_cons_of_mem p hq)
      simp only [List.map_cons, List.flatten_cons, List.length_cons,
        encode_point, List.append_assoc]
      rw [read_points]
      rw [read_f64_w64le p.lon hp.1, Option.some_bind]
      rw [read_f64_w64le p.lat hp.2, Option.some_bind]
      rw [ih hps, Option.some_bind]

theorem view_points_encode (ps : List (Point ℕ))
    (h : ∀ p ∈ ps, p.lon < 2 ^ 64 ∧ p.lat < 2 ^ 64) (rest : List ℕ) :
    view_points ps.length ((ps.map encode_point).flatten ++ rest) = ps := by
  induction ps with
  | nil => simp [view_points]
  | cons p ps ih =>
      have hp := h p (List.mem_cons_self p ps)
      have hps : ∀ q ∈ ps, q.lon < 2 ^ 64 ∧ q.lat < 2 ^ 64 :=
        fun q hq => h q (List.mem_cons_of_mem p hq)
      simp only [List.map_cons, List.flatten_cons, List.length_cons,
        encode_point, List.append_assoc]
      rw [view_points]
      rw [view_f64_w64le p.lon hp.1]
      rw [view_f64_w64le p.lat hp.2]
      simp only [ih hps]

theorem encode_map_object_length (obj : MapObject ℕ) :
    (encode_map_object obj).length = 32 + 8 + 16 * obj.points.length := by
  have hjoin : ∀ ps : List (Point ℕ),
      ((ps.map encode_point).flatten).length = 16 * ps.length := by
    intro ps
    induction ps with
    | nil => simp
    | cons p ps ih =>
        simp only [List.map_cons, List.flatten_cons, List.length_append,
          List.length_cons, ih, encode_point, w64le_length]
        ring
  simp only [encode_map_object, List.length_append, w64le_length, hjoin]

theorem read_map_object_encode (pre post : List ℕ) (obj : MapObject ℕ)
    (hwf : obj.wf) :
    read_map_object (pre ++ (encode_map_object obj ++ post)) pre.length =
      some obj := by
  obtain ⟨h1, h2, h3, h4, h5, h6⟩ := hwf
  unfold read_map_object
  rw [List.drop_left]
  unfold encode_map_object
  simp only [List.append_assoc]
  rw [read_f64_w64le _ h1, Option.some_bind]
  rw [read_f64_w64le _ h2, Option.some_bind]
  rw [read_f64_w64le _ h3, Option.some_bind]
  rw [read_f64_w64le _ h4, Option.some_bind]
  have hlen : obj.points.length % 2 ^ 64 = obj.points.length :=
    Nat.mod_eq_of_lt (by omega)
  rw [read_f64_w64le _ (by omega : obj.points.length % 2 ^ 64 < 2 ^ 64),
    Option.some_bind]
  simp only [hlen, if_pos h6]
  rw [read_points_encode obj.points h5 post, Option.some_bind]

theorem view_map_object_encode (pre post : List ℕ) (obj : MapObject ℕ)
    (hwf : obj.wf) :
    view_map_object (pre ++ (encode_map_object obj ++ post)) pre.length =
      obj := by
  obtain ⟨h1, h2, h3, h4, h5, h6⟩ := hwf
  unfold view_map_object
  rw [List.drop_left]
  unfold encode_map_object
  simp only [List.append_assoc]
  rw [view_f64_w64le _ h1]
  rw [view_f64_w64le _ h2]
  rw [view_f64_w64le _ h3]
  rw [view_f64_w64le _ h4]
  have hlen : obj.points.length % 2 ^ 64 = obj.points.length :=
    Nat.mod_eq_of_lt (by omega)
  rw [view_f64_w64le _ (by omega : obj.points.length % 2 ^ 64 < 2 ^ 64)]
  simp only [hlen]
  rw [view_points_encode obj.points h5 post]

/-- C3: `write_map_object` emits exactly `32 + 8 + 16·N` bytes (bounding box
as four little-endian f64 patterns, then the count as little-endian i64,
then the `N` lon/lat pairs), returns the stream position at which it started
writing, and `read_map_object` at that offset returns an equal `MapObject`. -/
theorem claim_C3 (file : List ℕ) (obj : MapObject ℕ) (hwf : obj.wf) :
    (write_map_object file obj).2 = file.length ∧
    (write_map_object file obj).1 = file ++ encode_map_object obj ∧
    (encode_map_object obj).length = 32 + 8 + 16 * obj.points.length ∧
    read_map_object (write_map_object file obj).1 (write_map_object file obj).2 =
      some obj := by
  refine ⟨rfl, rfl, encode_map_object_length obj, ?_⟩
  show read_map_object (file ++ encode_map_object obj) file.length = some obj
  have h := read_map_object_encode file [] obj hwf
  rwa [List.append_nil] at h

/-- Witness for C3: the unit test's object (bounding box `(10,20)-(30,40)`,
3 points) written at the end of a 3-byte file. -/
theorem claim_C3_witness :
    (MapObject.mk ⟨⟨10, 20⟩, ⟨30, 40⟩⟩
        [⟨15, 25⟩, ⟨20, 30⟩, ⟨25, 35⟩] : MapObject ℕ).wf ∧
    ((write_map_object [7, 7, 7]
        (MapObject.mk ⟨⟨10, 20⟩, ⟨30, 40⟩⟩ [⟨15, 25⟩, ⟨20, 30⟩, ⟨25, 35⟩])).2 =
      (3 : ℕ) ∧
    read_map_object
        (write_map_object [7, 7, 7]
          (MapObject.mk ⟨⟨10, 20⟩, ⟨30, 40⟩⟩ [⟨15, 25⟩, ⟨20, 30⟩, ⟨25, 35⟩])).1
        (write_map_object [7, 7, 7]
          (MapObject.mk ⟨⟨10, 20⟩, ⟨30, 40⟩⟩ [⟨15, 25⟩, ⟨20, 30⟩, ⟨25, 35⟩])).2 =
      some (MapObject.mk ⟨⟨10, 20⟩, ⟨30, 40⟩⟩ [⟨15, 25⟩, ⟨20, 30⟩, ⟨25, 35⟩])) :=
  ⟨by decide,
   by
    have h := claim_C3 [7, 7, 7]
      (MapObject.mk ⟨⟨10, 20⟩, ⟨30, 40⟩⟩ [⟨15, 25⟩, ⟨20, 30⟩, ⟨25, 35⟩])
      (by decide)
    exact ⟨h.1, h.2.2.2⟩⟩

/-- C10: at every offset where a well-formed `MapObject` was written (so the
mapped region holds its full `40 + 16·N` bytes there), the unchecked
zero-copy view agrees field-for-field and point-for-point with the
owned-copy `read_map_object`.  The view itself is a total function — it
performs no validation of the stored count against the remaining length;
that precondition is exactly the hypothesis of this theorem. -/
theorem claim_C10 (pre post : List ℕ) (obj : MapObject ℕ) (hwf : obj.wf) :
    view_map_object (pre ++ (encode_map_object obj ++ post)) pre.length = obj ∧
    read_map_object (pre ++ (encode_map_object obj ++ post)) pre.length =
      some obj :=
  ⟨view_map_object_encode pre post obj hwf,
   read_map_object_encode pre post obj hwf⟩

/-- Witness for C10: a 2-point object written between junk bytes. -/
theorem claim_C10_witness :
    (MapObject.mk ⟨⟨1, 2⟩, ⟨3, 4⟩⟩ [⟨5, 6⟩, ⟨7, 8⟩] : MapObject ℕ).wf ∧
    view_map_object
        ([9, 9] ++ (encode_map_object
          (MapObject.mk ⟨⟨1, 2⟩, ⟨3, 4⟩⟩ [⟨5, 6⟩, ⟨7, 8⟩]) ++ [4, 4, 4]))
        ([9, 9] : List ℕ).length =
      MapObject.mk ⟨⟨1, 2⟩, ⟨3, 4⟩⟩ [⟨5, 6⟩, ⟨7, 8⟩] :=
  ⟨by decide,
   (claim_C10 [9, 9] [4, 4, 4]
      (MapObject.mk ⟨⟨1, 2⟩, ⟨3, 4⟩⟩ [⟨5, 6⟩, ⟨7, 8⟩]) (by decide)).1⟩

/-! ### Spatial index (`src/data/spatial.rs`)

The Rust `TileIndex` keys a `HashMap<u64, Vec<u64>>` by `tile.index()`;
it is modelled as an association list with unique keys — `insert` appends
the offset to the existing bucket or creates a fresh one, `get` looks the
bucket up. -/

/-- Association-list core of `HashMap::entry(key).or_insert(vec![]).push(off)`. -/
def insert_assoc : List (ℕ × List ℕ) → ℕ → ℕ → List (ℕ × List ℕ)
  | [], key, off => [(key, [off])]
  | (k, l) :: rest, key, off =>
      if k = key then (k, l ++ [off]) :: rest
      else (k, l) :: insert_assoc rest key off

/-- `TileIndex` from `spatial.rs`. -/
structure TileIndex where
  tiles : List (ℕ × List ℕ)
  max_points : ℕ
deriving DecidableEq, Repr

/-- `TileIndex::new`. -/
def TileIndex.new : TileIndex := ⟨[], 0⟩

/-- `TileIndex::insert`: appends the offset to the bucket keyed by
`tile.index()`. -/
def TileIndex.insert (ti : TileIndex) (tile : Tile) (offset : ℕ) : TileIndex :=
  ⟨insert_assoc ti.tiles tile.index offset, ti.max_points⟩

/-- `TileIndex::get`: looks up the bucket keyed by `tile.index()`. -/
def TileIndex.get (ti : TileIndex) (tile : Tile) : Option (List ℕ) :=
  ti.tiles.lookup tile.index

/-- `TileIndex::update_max_points`. -/
def TileIndex.update_max_points (ti : TileIndex) (num_points : ℕ) : TileIndex :=
  if num_points > ti.max_points then ⟨ti.tiles, num_points⟩ else ti

/-! ### Way classification (`src/data/loader.rs`) -/

/-- `is_important_way` from `loader.rs`: scans the tag list for a `highway`
tag whose value is one of the ten major-road classes. -/
def is_important_way (tags : List (String × String)) : Bool :=
  tags.any fun kv =>
    kv.1 == "highway" &&
      (kv.2 == "motorway" || kv.2 == "trunk" || kv.2 == "primary" ||
       kv.2 == "secondary" || kv.2 == "tertiary" || kv.2 == "motorway_link" ||
       kv.2 == "trunk_link" || kv.2 == "primary_link" ||
       kv.2 == "secondary_link" || kv.2 == "tertiary_link")

theorem important_way_unit_tests :
    is_important_way [("highway", "motorway")] = true ∧
    is_important_way [("highway", "residential")] = false ∧
    is_important_way [("highway", "primary")] = true ∧
    is_important_way [("highway", "footway")] = false := by
  decide

/-! ### Claim C8: `BoundingBox::from_points` -/

/-- The fold step of `from_points`: componentwise `min`/`max` update. -/
theorem from_points_fold_invariant (pts : List (Point ℝ)) (s : ℝ × ℝ × ℝ × ℝ)
    (hs : s.1 ≤ s.2.2.1 ∧ s.2.1 ≤ s.2.2.2) :
    (pts.foldl
        (fun (s : ℝ × ℝ × ℝ × ℝ) p =>
          (Min.min s.1 p.lon, Min.min s.2.1 p.lat,
           Max.max s.2.2.1 p.lon, Max.max s.2.2.2 p.lat)) s).1 ≤
      (pts.foldl
        (fun (s : ℝ × ℝ × ℝ × ℝ) p =>
          (Min.min s.1 p.lon, Min.min s.2.1 p.lat,
           Max.max s.2.2.1 p.lon, Max.max s.2.2.2 p.lat)) s).2.2.1 ∧
    (pts.foldl
        (fun (s : ℝ × ℝ × ℝ × ℝ) p =>
          (Min.min s.1 p.lon, Min.min s.2.1 p.lat,
           Max.max s.2.2.1 p.lon, Max.max s.2.2.2 p.lat)) s).2.1 ≤
      (pts.foldl
        (fun (s : ℝ × ℝ × ℝ × ℝ) p =>
          (Min.min s.1 p.lon, Min.min s.2.1 p.lat,
           Max.max s.2.2.1 p.lon, Max.max s.2.2.2 p.lat)) s).2.2.2 := by
  induction pts generalizing s with
  | nil => exact hs
  | cons p pts ih =>
      apply ih
      constructor
      · exact le_trans (min_le_left _ _) (le_trans hs.1 (le_max_left _ _))
      · exact le_trans (min_le_left _ _) (le_trans hs.2 (le_max_left _ _))

/-- C8: `from_points` returns `None` exactly on the empty list, and on any
non-empty list of finite-`f64` points it returns a box with
`min.lon ≤ max.lon` and `min.lat ≤ max.lat`.  (The hypothesis that every
coordinate lies in the finite-`f64` range `[-f64::MAX, f64::MAX]` is
automatic for every finite `f64`.) -/
theorem claim_C8 (points : List (Point ℝ))
    (hb : ∀ p ∈ points, |p.lon| ≤ f64_max ∧ |p.lat| ≤ f64_max) :
    (BoundingBox.from_points points = none ↔ points = []) ∧
    (points ≠ [] → ∃ bb, BoundingBox.from_points points = some bb ∧
      bb.min.lon ≤ bb.max.lon ∧ bb.min.lat ≤ bb.max.lat) := by
  constructor
  · unfold BoundingBox.from_points
    cases points with
    | nil => simp
    | cons p pts => simp
  · intro hne
    cases points with
    | nil => exact absurd rfl hne
    | cons p pts =>
        have hp := hb p (List.mem_cons_self p pts)
        have h1 : |p.lon| ≤ f64_max := hp.1
        have h2 : |p.lat| ≤ f64_max := hp.2
        rw [abs_le] at h1 h2
        unfold BoundingBox.from_points
        simp only [List.isEmpty_cons, List.foldl_cons, if_neg]
        refine ⟨_, rfl, ?_⟩
        have := from_points_fold_invariant pts
          (Min.min f64_max p.lon, Min.min f64_max p.lat,
           Max.max (-f64_max) p.lon, Max.max (-f64_max) p.lat)
          (by
            constructor
            · exact le_trans (min_le_right _ _) (le_max_right _ _)
            · exact le_trans (min_le_right _ _) (le_max_right _ _))
        exact this

/-- Witness for C8 at the concrete one-point list `[(5, 7)]`. -/
theorem claim_C8_witness :
    (∀ p ∈ [(Point.mk 5 7 : Point ℝ)], |p.lon| ≤ f64_max ∧ |p.lat| ≤ f64_max) ∧
    [(Point.mk 5 7 : Point ℝ)] ≠ [] ∧
    (∃ bb, BoundingBox.from_points [(Point.mk 5 7 : Point ℝ)] = some bb ∧
      bb.min.lon ≤ bb.max.lon ∧ bb.min.lat ≤ bb.max.lat) := by
  have hb : ∀ p ∈ [(Point.mk 5 7 : Point ℝ)],
      |p.lon| ≤ f64_max ∧ |p.lat| ≤ f64_max := by
    intro p hp
    simp only [List.mem_singleton] at hp
    subst hp
    unfold f64_max
    constructor <;> rw [abs_le] <;> constructor <;> norm_num
  refine ⟨hb, by simp, (claim_C8 [Point.mk 5 7] hb).2 (by simp)⟩

/-! ### Projection and tiling math (`src/projection.rs`)

The `f64` trigonometry is modelled over `ℝ` (exact real semantics; `f64`
rounding is not modelled).  The `as u32` cast applied to a floored `f64` is
Rust's saturating float-to-int conversion. -/

/-- Rust's `f* .floor() as u32`: truncation saturates at `0` and
`u32::MAX`. -/
def sat_u32 (i : ℤ) : ℕ := Min.min i.toNat (2 ^ 32 - 1)

/-- `MAX_LAT` from `projection.rs`: the Web-Mercator latitude clamp. -/
noncomputable def MAX_LAT : ℝ := 85.0511287798

/-- `get_bounding_box` from `projection.rs`: geographic bounds of a tile via
the inverse Web-Mercator formulas. -/
noncomputable def get_bounding_box (tile : Tile) : BoundingBox ℝ :=
  let n : ℝ := 2 ^ tile.z
  let lon_min := (tile.x : ℝ) / n * 360 - 180
  let lat_min :=
    Real.arctan (Real.sinh (Real.pi * (1 - 2 * (tile.y : ℝ) / n))) * 180 / Real.pi
  let lon_max := ((tile.x : ℝ) + 1) / n * 360 - 180
  let lat_max :=
    Real.arctan (Real.sinh (Real.pi * (1 - 2 * ((tile.y : ℝ) + 1) / n))) * 180 / Real.pi
  ⟨⟨Min.min lon_min lon_max, Min.min lat_min lat_max⟩,
   ⟨Max.max lon_min lon_max, Max.max lat_min lat_max⟩⟩

/-- `deg2num` from `projection.rs`: lat/lon to tile coordinates at a zoom
level, floor-rounded. -/
noncomputable def deg2num (lat_deg lon_deg : ℝ) (zoom : ℕ) : ℕ × ℕ :=
  let lat_rad := Real.pi * lat_deg / 180
  let n : ℝ := 2 ^ zoom
  let x := sat_u32 ⌊(lon_deg + 180) / 360 * n⌋
  let y := sat_u32
    ⌊(1 - Real.log (Real.tan lat_rad + 1 / Real.cos lat_rad) / Real.pi) / 2 * n⌋
  (x, y)

/-- `get_tiles_for_bounding_box` from `projection.rs`: for every zoom in
`min_z..=max_z`, the NW corner `(bbox.max.lat, bbox.min.lon)` and the SE
corner `(bbox.min.lat, bbox.max.lon)` are converted to tile coordinates and
the inclusive rectangle between them is enumerated (x outer, y inner). -/
noncomputable def get_tiles_for_bounding_box (bbox : BoundingBox ℝ)
    (min_z max_z : ℕ) : List Tile :=
  (List.range' min_z (max_z + 1 - min_z)).flatMap fun z =>
    let c1 := deg2num bbox.max.lat bbox.min.lon z
    let c2 := deg2num bbox.min.lat bbox.max.lon z
    (List.range' c1.1 (c2.1 + 1 - c1.1)).flatMap fun x =>
      (List.range' c1.2 (c2.2 + 1 - c1.2)).map fun y => Tile.mk x y z

/-! ### Ingestion (`src/data/loader.rs`)

`load_osm_data` processes one way at a time; `process_way` is the body of
that loop for a single way: compute the bounding box, update `max_points`,
and insert the way's offset (the value `write_map_object` returned for it,
taken here as a parameter) into every overlapping tile of zooms
`0..=max_z`, skipping tiles with zoom `< 11` unless the way is an important
(major-road) way. -/

noncomputable def process_way (ti : TileIndex) (points : List (Point ℝ))
    (tags : List (String × String)) (offset : ℕ) (max_z : ℕ) : TileIndex :=
  if points.isEmpty then ti
  else
    match BoundingBox.from_points points with
    | none => ti
    | some bounding_box =>
        let ti1 := ti.update_max_points points.length
        let is_important := is_important_way tags
        (get_tiles_for_bounding_box bounding_box 0 max_z).foldl
          (fun acc tile =>
            if is_important = false ∧ tile.z < 11 then acc
            else acc.insert tile offset)
          ti1

/-! ### GPU renderer (`src/renderer/renderer.rs`)

The per-tile render cycle is modelled up to the GPU boundary: uniform-buffer
creation, descriptor sets, command recording, submission, the fence wait and
the framebuffer readback (steps 5–7 of the cycle) are abstracted as a single
function `gpu : vertex_count → Except VulkanError RgbaImage` supplied as a
parameter.  The two short-circuit paths of `render_tile` never invoke it. -/

def TILE_SIZE : ℕ := 256

structure RgbaImage where
  width : ℕ
  height : ℕ
  pixels : List (ℕ × ℕ × ℕ × ℕ)
deriving DecidableEq, Repr

/-- `RgbaImage::from_pixel`: a `w × h` image filled with one pixel value. -/
def RgbaImage.from_pixel (w h : ℕ) (px : ℕ × ℕ × ℕ × ℕ) : RgbaImage :=
  ⟨w, h, List.replicate (w * h) px⟩

inductive VulkanError where
  | gpu_failure : ℕ → VulkanError
deriving DecidableEq, Repr

/-- The fixed vertex-buffer capacity (10M `f32` slots) allocated in
`VulkanRenderer::new`. -/
def VERTEX_BUFFER_CAPACITY : ℕ := 10000000

/-- The inner loop of `build_vertex_buffer` (`for i in 1..points.len()`):
emits the 4 floats of one line segment per consecutive point pair, stopping
(`break`) as soon as the capacity would be exceeded.  The state is the
buffer contents and `vertex_count`; the write index of the source equals the
buffer length. -/
def emit_pairs (cap : ℕ) : List (Point α) → List α × ℕ → List α × ℕ
  | p0 :: p1 :: rest, s =>
      if s.1.length + 4 > cap then s
      else emit_pairs cap (p1 :: rest)
        (s.1 ++ [p0.lon, p0.lat, p1.lon, p1.lat], s.2 + 2)
  | _, s => s

/-- `VulkanRenderer::build_vertex_buffer`: walks the offset list in order,
skips objects whose bounding box does not overlap the tile's and objects
with fewer than 2 points, and emits line segments into the shared buffer;
returns (buffer contents, `vertex_count`).  (In the source the buffer is the
pre-allocated mapped vertex buffer and the result is `Ok(vertex_count)`;
capacity exhaustion only stops emission, it is not an error.) -/
def build_vertex_buffer [LinearOrder α] (cap : ℕ) (offsets : List ℕ)
    (store : ℕ → MapObject α) (bbox : BoundingBox α) : List α × ℕ :=
  offsets.foldl
    (fun s off =>
      let map_object := store off
      if ¬ (bbox.overlaps map_object.bounding_box = true) then s
      else if map_object.points.length < 2 then s
      else emit_pairs cap map_object.points s)
    ([], 0)

/-- `VulkanRenderer::render_tile`: look up the tile's offsets (absent →
white tile), build the vertex buffer against the tile's geographic bounding
box (no visible vertices → white tile), otherwise run the GPU submission
(abstracted as `gpu`).  `store` is the mmap-backed zero-copy object store,
modelled as a map from offsets to their (real-valued) objects. -/
noncomputable def render_tile (gpu : ℕ → Except VulkanError RgbaImage)
    (tile_index : TileIndex) (store : ℕ → MapObject ℝ) (tile : Tile) :
    Except VulkanError RgbaImage :=
  match tile_index.get tile with
  | none =>
      Except.ok (RgbaImage.from_pixel TILE_SIZE TILE_SIZE (255, 255, 255, 255))
  | some offsets =>
      let bbox := get_bounding_box tile
      let vertex_count :=
        (build_vertex_buffer VERTEX_BUFFER_CAPACITY offsets store bbox).2
      if vertex_count = 0 then
        Except.ok (RgbaImage.from_pixel TILE_SIZE TILE_SIZE (255, 255, 255, 255))
      else gpu vertex_count

/-- C6: if the spatial index has no entry for the tile, or if zero vertices
survive overlap filtering, `render_tile` returns `Ok` with an all-white
`(255,255,255,255)` tile-sized image; the result does not depend on the GPU
submission function `gpu`, i.e. no GPU work is recorded or submitted on
these paths. -/
theorem claim_C6 :
    (∀ (gpu : ℕ → Except VulkanError RgbaImage) (ti : TileIndex)
        (store : ℕ → MapObject ℝ) (t : Tile),
      ti.get t = none →
      render_tile gpu ti store t =
        Except.ok
          (RgbaImage.from_pixel TILE_SIZE TILE_SIZE (255, 255, 255, 255))) ∧
    (∀ (gpu : ℕ → Except VulkanError RgbaImage) (ti : TileIndex)
        (store : ℕ → MapObject ℝ) (t : Tile) (offsets : List ℕ),
      ti.get t = some offsets →
      (build_vertex_buffer VERTEX_BUFFER_CAPACITY offsets store
          (get_bounding_box t)).2 = 0 →
      render_tile gpu ti store t =
        Except.ok
          (RgbaImage.from_pixel TILE_SIZE TILE_SIZE (255, 255, 255, 255))) := by
  constructor
  · intro gpu ti store t h
    unfold render_tile
    rw [h]
  · intro gpu ti store t offsets h hv
    unfold render_tile
    rw [h]
    simp only [hv, if_pos]

/-- A GPU submission stub that always fails: if either blank-tile path did
consult the GPU, the render result could not be `Ok`. -/
def gpu_fail : ℕ → Except VulkanError RgbaImage :=
  fun n => Except.error (VulkanError.gpu_failure n)

/-- A store whose every offset holds an empty-point object. -/
noncomputable def empty_store : ℕ → MapObject ℝ :=
  fun _ => ⟨⟨⟨0, 0⟩, ⟨0, 0⟩⟩, []⟩

/-- Witness for C6: an empty index (absent entry) and an index whose bucket
for tile `(0,0,0)` holds no offsets (zero vertices emitted). -/
theorem claim_C6_witness :
    (TileIndex.new.get (Tile.mk 0 0 0) = none ∧
      render_tile gpu_fail TileIndex.new empty_store (Tile.mk 0 0 0) =
        Except.ok
          (RgbaImage.from_pixel TILE_SIZE TILE_SIZE (255, 255, 255, 255))) ∧
    ((TileIndex.mk [(0, [])] 0).get (Tile.mk 0 0 0) = some [] ∧
      (build_vertex_buffer VERTEX_BUFFER_CAPACITY [] empty_store
          (get_bounding_box (Tile.mk 0 0 0))).2 = 0 ∧
      render_tile gpu_fail (TileIndex.mk [(0, [])] 0) empty_store
          (Tile.mk 0 0 0) =
        Except.ok
          (RgbaImage.from_pixel TILE_SIZE TILE_SIZE (255, 255, 255, 255))) := by
  have h1 : TileIndex.new.get (Tile.mk 0 0 0) = none := rfl
  have h2 : (TileIndex.mk [(0, [])] 0).get (Tile.mk 0 0 0) = some [] := rfl
  have h3 : (build_vertex_buffer VERTEX_BUFFER_CAPACITY [] empty_store
      (get_bounding_box (Tile.mk 0 0 0))).2 = 0 := rfl
  exact ⟨⟨h1, claim_C6.1 gpu_fail TileIndex.new empty_store (Tile.mk 0 0 0) h1⟩,
    ⟨h2, h3, claim_C6.2 gpu_fail (TileIndex.mk [(0, [])] 0) empty_store
      (Tile.mk 0 0 0) [] h2 h3⟩⟩

/-- A spatial index holding geometry only under the zoom-15 tile `(0,0,15)`
(offset 0), as ingestion with `max_z = 15` produces. -/
def ancestor_only_index : TileIndex := ⟨[((Tile.mk 0 0 15).index, [0])], 2⟩

/-- A store whose every offset holds a 2-point object covering
`(0,0)-(1,1)`. -/
noncomputable def two_point_store : ℕ → MapObject ℝ :=
  fun _ => ⟨⟨⟨0, 0⟩, ⟨1, 1⟩⟩, [⟨0, 0⟩, ⟨1, 1⟩]⟩

/-- C2 (code behaviour at the failing input): `render_tile` looks up the
requested zoom-16 tile's own index — it never calls `get_ancestor` — so a
request for `(0,0,16)` whose geometry is stored under the zoom-15 ancestor
`(0,0,15)` short-circuits to a blank white tile for every GPU backend and
every store, although the ancestor bucket is non-empty and
`get_ancestor 15` identifies it.  (`main.rs` documents the intent
"can render higher zoom levels by using parent tiles".) -/
theorem claim_C2_code_behavior :
    ancestor_only_index.get (Tile.mk 0 0 15) = some [0] ∧
    (Tile.mk 0 0 16).get_ancestor 15 = some (Tile.mk 0 0 15) ∧
    ancestor_only_index.get (Tile.mk 0 0 16) = none ∧
    (∀ (gpu : ℕ → Except VulkanError RgbaImage) (store : ℕ → MapObject ℝ),
      render_tile gpu ancestor_only_index store (Tile.mk 0 0 16) =
        Except.ok
          (RgbaImage.from_pixel TILE_SIZE TILE_SIZE (255, 255, 255, 255))) := by
  have hnone : ancestor_only_index.get (Tile.mk 0 0 16) = none := by decide
  refine ⟨by decide, by decide, hnone, fun gpu store => ?_⟩
  unfold render_tile
  rw [hnone]

/-! ### Claim C7: vertex emission -/

/-- The floats a full (untruncated) walk of one object's consecutive point
pairs emits: 4 per pair. -/
def seg_floats : List (Point α) → List α
  | p0 :: p1 :: rest => [p0.lon, p0.lat, p1.lon, p1.lat] ++ seg_floats (p1 :: rest)
  | _ => []

/-- The objects `build_vertex_buffer` actually draws from: bounding box
overlapping the tile's and at least 2 points, in offset order. -/
def kept_objs [LinearOrder α] (offsets : List ℕ) (store : ℕ → MapObject α)
    (bbox : BoundingBox α) : List (MapObject α) :=
  (offsets.map store).filter fun o =>
    bbox.overlaps o.bounding_box && decide (2 ≤ o.points.length)

/-- `Σ (nᵢ - 1)` over the kept objects. -/
def seg_sum [LinearOrder α] (offsets : List ℕ) (store : ℕ → MapObject α)
    (bbox : BoundingBox α) : ℕ :=
  ((kept_objs offsets store bbox).map fun o => o.points.length - 1).sum

theorem seg_floats_length (pts : List (Point α)) :
    (seg_floats pts).length = 4 * (pts.length - 1) := by
  induction pts with
  | nil => simp [seg_floats]
  | cons p0 tl ih =>
      cases tl with
      | nil => simp [seg_floats]
      | cons p1 rest =>
          rw [seg_floats]
          simp only [List.length_append, List.length_cons, List.length_nil]
            at ih ⊢
          omega

theorem emit_pairs_count (cap : ℕ) (pts : List (Point α)) (buf : List α)
    (m : ℕ) (hbuf : buf.length = 4 * m) (hm : m ≤ cap / 4) :
    (emit_pairs cap pts (buf, 2 * m)).2 =
      2 * Min.min (m + (pts.length - 1)) (cap / 4) ∧
    (emit_pairs cap pts (buf, 2 * m)).1.length =
      2 * (emit_pairs cap pts (buf, 2 * m)).2 := by
  induction pts generalizing buf m with
  | nil =>
      simp only [emit_pairs, List.length_nil]
      constructor <;> omega
  | cons p0 tl ih =>
      cases tl with
      | nil =>
          simp only [emit_pairs, List.length_cons, List.length_nil]
          constructor <;> omega
      | cons p1 rest =>
          rw [emit_pairs]
          by_cases hc : buf.length + 4 > cap
          · rw [if_pos hc]
            have hcap : cap / 4 = m := by omega
            simp only [List.length_cons]
            constructor <;> omega
          · rw [if_neg hc]
            have h22 : 2 * m + 2 = 2 * (m + 1) := by ring
            rw [h22]
            have hb2 : (buf ++ [p0.lon, p0.lat, p1.lon, p1.lat]).length =
                4 * (m + 1) := by
              simp only [List.length_append, List.length_cons, List.length_nil]
              omega
            have hm2 : m + 1 ≤ cap / 4 := by omega
            have hrec := ih (buf ++ [p0.lon, p0.lat, p1.lon, p1.lat]) (m + 1)
              hb2 hm2
            simp only [List.length_cons] at hrec ⊢
            constructor
            · rw [hrec.1]
              congr 1
              omega
            · exact hrec.2

theorem emit_pairs_all (cap : ℕ) (pts : List (Point α)) (buf : List α)
    (vc : ℕ) (hfit : buf.length + 4 * (pts.length - 1) ≤ cap) :
    emit_pairs cap pts (buf, vc) =
      (buf ++ seg_floats pts, vc + 2 * (pts.length - 1)) := by
  induction pts generalizing buf vc with
  | nil => simp [emit_pairs, seg_floats]
  | cons p0 tl ih =>
      cases tl with
      | nil => simp [emit_pairs, seg_floats]
      | cons p1 rest =>
          simp only [List.length_cons] at hfit
          rw [emit_pairs, if_neg (by dsimp only; omega)]
          rw [ih (buf ++ [p0.lon, p0.lat, p1.lon, p1.lat]) (vc + 2)
            (by
              simp only [List.length_append, List.length_cons, List.length_nil]
              omega)]
          rw [seg_floats]
          simp only [List.append_assoc, List.cons_append, List.nil_append,
            List.length_cons, Prod.mk.injEq, true_and]
          omega

theorem build_vertex_buffer_count_aux [LinearOrder α] (cap : ℕ)
    (store : ℕ → MapObject α) (bbox : BoundingBox α) (offsets : List ℕ)
    (buf : List α) (m : ℕ) (hbuf : buf.length = 4 * m) (hm : m ≤ cap / 4) :
    (offsets.foldl
        (fun s off =>
          let map_object := store off
          if ¬ (bbox.overlaps map_object.bounding_box = true) then s
          else if map_object.points.length < 2 then s
          else emit_pairs cap map_object.points s)
        (buf, 2 * m)).2 =
      2 * Min.min (m + seg_sum offsets store bbox) (cap / 4) ∧
    (offsets.foldl
        (fun s off =>
          let map_object := store off
          if ¬ (bbox.overlaps map_object.bounding_box = true) then s
          else if map_object.points.length < 2 then s
          else emit_pairs cap map_object.points s)
        (buf, 2 * m)).1.length =
      2 * (offsets.foldl
        (fun s off =>
          let map_object := store off
          if ¬ (bbox.overlaps map_object.bounding_box = true) then s
          else if map_object.points.length < 2 then s
          else emit_pairs cap map_object.points s)
        (buf, 2 * m)).2 := by
  induction offsets generalizing buf m with
  | nil =>
      simp only [List.foldl_nil, seg_sum, kept_objs, List.map_nil,
        List.filter_nil, List.sum_nil]
      constructor <;> omega
  | cons off rest ih =>
      by_cases h1 : bbox.overlaps (store off).bounding_box = true
      · by_cases h2 : (store off).points.length < 2
        · have hstep : seg_sum (off :: rest) store bbox =
              seg_sum rest store bbox := by
            have : (2 ≤ (store off).points.length) = False := by
              simp only [eq_iff_iff, iff_false]
              omega
            simp [seg_sum, kept_objs, List.filter_cons, h1, this]
          rw [hstep]
          simp only [List.foldl_cons, if_neg (not_not_intro h1), if_pos h2]
          exact ih buf m hbuf hm
        · have hseg : seg_sum (off :: rest) store bbox =
              ((store off).points.length - 1) + seg_sum rest store bbox := by
            have : (2 ≤ (store off).points.length) = True := by
              simp only [eq_iff_iff, iff_true]
              omega
            simp [seg_sum, kept_objs, List.filter_cons, h1, this]
          rw [hseg]
          simp only [List.foldl_cons, if_neg (not_not_intro h1), if_neg h2]
          have hemit := emit_pairs_count cap (store off).points buf m hbuf hm
          set m1 := Min.min (m + ((store off).points.length - 1)) (cap / 4)
            with hm1
          have he2 : (emit_pairs cap (store off).points (buf, 2 * m)).2 =
              2 * m1 := hemit.1
          have he1 : (emit_pairs cap (store off).points (buf, 2 * m)).1.length =
              4 * m1 := by
            rw [hemit.2, he2]
            ring
          have hpair : emit_pairs cap (store off).points (buf, 2 * m) =
              ((emit_pairs cap (store off).points (buf, 2 * m)).1, 2 * m1) := by
            rw [← he2]
          rw [hpair]
          have hm1le : m1 ≤ cap / 4 := min_le_right _ _
          have hrec := ih (emit_pairs cap (store off).points (buf, 2 * m)).1
            m1 he1 hm1le
          refine ⟨?_, hrec.2⟩
          rw [hrec.1]
          congr 1
          omega
      · have hstep : seg_sum (off :: rest) store bbox =
            seg_sum rest store bbox := by
          have hov : bbox.overlaps (store off).bounding_box = false := by
            simp only [Bool.not_eq_true] at h1
            exact h1
          simp [seg_sum, kept_objs, List.filter_cons, hov]
        rw [hstep]
        simp only [List.foldl_cons, if_pos h1]
        exact ih buf m hbuf hm

theorem build_vertex_buffer_all_aux [LinearOrder α] (cap : ℕ)
    (store : ℕ → MapObject α) (bbox : BoundingBox α) (offsets : List ℕ)
    (buf : List α) (vc : ℕ)
    (hfit : buf.length + 4 * seg_sum offsets store bbox ≤ cap) :
    offsets.foldl
        (fun s off =>
          let map_object := store off
          if ¬ (bbox.overlaps map_object.bounding_box = true) then s
          else if map_object.points.length < 2 then s
          else emit_pairs cap map_object.points s)
        (buf, vc) =
      (buf ++
        ((kept_objs offsets store bbox).map fun o => seg_floats o.points).flatten,
       vc + 2 * seg_sum offsets store bbox) := by
  induction offsets generalizing buf vc with
  | nil => simp [kept_objs, seg_sum]
  | cons off rest ih =>
      by_cases h1 : bbox.overlaps (store off).bounding_box = true
      · by_cases h2 : (store off).points.length < 2
        · have hcond : (2 ≤ (store off).points.length) = False := by
            simp only [eq_iff_iff, iff_false]
            omega
          have hkept : kept_objs (off :: rest) store bbox =
              kept_objs rest store bbox := by
            simp [kept_objs, List.filter_cons, h1, hcond]
          have hseg : seg_sum (off :: rest) store bbox =
              seg_sum rest store bbox := by
            simp [seg_sum, hkept]
          rw [hkept, hseg]
          rw [hseg] at hfit
          simp only [List.foldl_cons, if_neg (not_not_intro h1), if_pos h2]
          exact ih buf vc hfit
        · have hcond : (2 ≤ (store off).points.length) = True := by
            simp only [eq_iff_iff, iff_true]
            omega
          have hkept : kept_objs (off :: rest) store bbox =
              store off :: kept_objs rest store bbox := by
            simp [kept_objs, List.filter_cons, h1, hcond]
          have hseg : seg_sum (off :: rest) store bbox =
              ((store off).points.length - 1) + seg_sum rest store bbox := by
            simp [seg_sum, hkept]
          rw [hkept, hseg]
          rw [hseg] at hfit
          simp only [List.foldl_cons, if_neg (not_not_intro h1), if_neg h2]
          rw [emit_pairs_all cap (store off).points buf vc (by omega)]
          have hlen := seg_floats_length (store off).points
          rw [ih (buf ++ seg_floats (store off).points)
            (vc + 2 * ((store off).points.length - 1)) (by
              simp only [List.length_append]
              omega)]
          simp only [List.map_cons, List.flatten_cons, List.append_assoc,
            Prod.mk.injEq, true_and]
          omega
      · have hov : bbox.overlaps (store off).bounding_box = false := by
          simp only [Bool.not_eq_true] at h1
          exact h1
        have hkept : kept_objs (off :: rest) store bbox =
            kept_objs rest store bbox := by
          simp [kept_objs, List.filter_cons, hov]
        have hseg : seg_sum (off :: rest) store bbox =
            seg_sum rest store bbox := by
          simp [seg_sum, hkept]
        rw [hkept, hseg]
        rw [hseg] at hfit
        simp only [List.foldl_cons, if_pos h1]
        exact ih buf vc hfit

/-- C7: `build_vertex_buffer` emits 2 vertices per consecutive point pair of
each object that overlaps the tile bounding box and has at least 2 points,
in offset order; objects with fewer than 2 points or no overlap contribute
nothing; the count is capped by the fixed capacity (`2 · ⌊cap/4⌋` vertices),
after which no further vertices are accepted; when the capacity suffices the
buffer holds exactly the concatenated segments and the count is
`2·Σ(nᵢ-1)`.  (The function is total — the call always returns `Ok` in the
source.) -/
theorem claim_C7 [LinearOrder α] (cap : ℕ) (offsets : List ℕ)
    (store : ℕ → MapObject α) (bbox : BoundingBox α) :
    (build_vertex_buffer cap offsets store bbox).2 =
      2 * Min.min (seg_sum offsets store bbox) (cap / 4) ∧
    (4 * seg_sum offsets store bbox ≤ cap →
      build_vertex_buffer cap offsets store bbox =
        (((kept_objs offsets store bbox).map fun o => seg_floats o.points).flatten,
         2 * seg_sum offsets store bbox)) := by
  constructor
  · have h := (build_vertex_buffer_count_aux cap store bbox offsets [] 0 rfl
      (Nat.zero_le _)).1
    unfold build_vertex_buffer
    simp only [Nat.mul_zero, Nat.zero_add] at h
    exact h
  · intro hfit
    have h := build_vertex_buffer_all_aux cap store bbox offsets [] 0
      (by simpa using hfit)
    unfold build_vertex_buffer
    simpa using h

/-- A concrete store over `ℚ`: offset 0 holds a 3-point object, any other
offset a 1-point object. -/
def sample_store : ℕ → MapObject ℚ :=
  fun off =>
    if off = 0 then ⟨⟨⟨0, 0⟩, ⟨2, 2⟩⟩, [⟨0, 0⟩, ⟨1, 1⟩, ⟨2, 2⟩]⟩
    else ⟨⟨⟨0, 0⟩, ⟨0, 0⟩⟩, [⟨0, 0⟩]⟩

def sample_bbox : BoundingBox ℚ := ⟨⟨0, 0⟩, ⟨10, 10⟩⟩

/-- Witness for C7 at capacity 100 and offsets `[0, 1]`: the 3-point object
contributes 4 vertices, the 1-point object none. -/
theorem claim_C7_witness :
    4 * seg_sum [0, 1] sample_store sample_bbox ≤ 100 ∧
    (build_vertex_buffer 100 [0, 1] sample_store sample_bbox).2 =
      2 * Min.min (seg_sum [0, 1] sample_store sample_bbox) (100 / 4) ∧
    build_vertex_buffer 100 [0, 1] sample_store sample_bbox =
      (((kept_objs [0, 1] sample_store sample_bbox).map
          fun o => seg_floats o.points).flatten,
       2 * seg_sum [0, 1] sample_store sample_bbox) :=
  ⟨by decide, (claim_C7 100 [0, 1] sample_store sample_bbox).1,
   (claim_C7 100 [0, 1] sample_store sample_bbox).2 (by decide)⟩

/-! ### Claim C4: zoom 0 of `get_tiles_for_bounding_box`

The Mercator y-fraction at zoom 0 lands in `[0, 1)` exactly when
`tan r + 1/cos r ∈ (e^{-π}, e^{π}]` for the latitude in radians `r`.  The
following lemmas establish those bounds on the whole clamped band
`|lat| ≤ 85.0511287798` (the source's `MAX_LAT`).  Since that constant sits
within `7·10^{-12}` degrees of the asymptote `(180/π)·arctan(sinh π)`, the
endpoint estimate needs Taylor bounds of order 7/8 for sin/cos and a
29-term partial sum for `e^π`; the required remainder bounds are derived by
the usual derivative ladder starting from `1 - x²/2 ≤ cos x`. -/

theorem taylor_mono_aux {f g : ℝ → ℝ} (key : ∀ y : ℝ, HasDerivAt f (g y) y)
    (hg : ∀ y : ℝ, 0 ≤ y → 0 ≤ g y) {x : ℝ} (hx : 0 ≤ x) : f 0 ≤ f x := by
  have hmono : MonotoneOn f (Set.Ici 0) := by
    apply monotoneOn_of_deriv_nonneg (convex_Ici 0)
    · exact fun y _ => (key y).differentiableAt.continuousAt.continuousWithinAt
    · exact fun y _ => (key y).differentiableAt.differentiableWithinAt
    · intro y hy
      rw [interior_Ici] at hy
      rw [(key y).deriv]
      exact hg y (le_of_lt hy)
  exact hmono Set.left_mem_Ici hx hx

theorem sin_ge_t3 {x : ℝ} (hx : 0 ≤ x) : x - x ^ 3 / 6 ≤ Real.sin x := by
  have key : ∀ y : ℝ, HasDerivAt (fun t => Real.sin t - (t - t ^ 3 / 6))
      (Real.cos y - (1 - ((3 : ℕ) : ℝ) * y ^ (3 - 1) / 6)) y :=
    fun y => (Real.hasDerivAt_sin y).sub
      ((hasDerivAt_id y).sub ((hasDerivAt_pow 3 y).div_const 6))
  have h := taylor_mono_aux key (fun y hy => by
    have hc := Real.one_sub_sq_div_two_le_cos (x := y)
    push_cast
    norm_num
    nlinarith [hc]) hx
  norm_num [Real.sin_zero] at h
  linarith

theorem cos_le_t4 {x : ℝ} (hx : 0 ≤ x) :
    Real.cos x ≤ 1 - x ^ 2 / 2 + x ^ 4 / 24 := by
  have key : ∀ y : ℝ, HasDerivAt
      (fun t => (1 - t ^ 2 / 2 + t ^ 4 / 24) - Real.cos t)
      (((0 - ((2 : ℕ) : ℝ) * y ^ (2 - 1) / 2) +
        ((4 : ℕ) : ℝ) * y ^ (4 - 1) / 24) - (-Real.sin y)) y :=
    fun y => (((hasDerivAt_const y (1 : ℝ)).sub
      ((hasDerivAt_pow 2 y).div_const 2)).add
      ((hasDerivAt_pow 4 y).div_const 24)).sub (Real.hasDerivAt_cos y)
  have h := taylor_mono_aux key (fun y hy => by
    have hs := sin_ge_t3 hy
    push_cast
    norm_num
    nlinarith [hs]) hx
  norm_num [Real.cos_zero] at h
  linarith

theorem sin_le_t5 {x : ℝ} (hx : 0 ≤ x) :
    Real.sin x ≤ x - x ^ 3 / 6 + x ^ 5 / 120 := by
  have key : ∀ y : ℝ, HasDerivAt
      (fun t => (t - t ^ 3 / 6 + t ^ 5 / 120) - Real.sin t)
      (((1 - ((3 : ℕ) : ℝ) * y ^ (3 - 1) / 6) +
        ((5 : ℕ) : ℝ) * y ^ (5 - 1) / 120) - Real.cos y) y :=
    fun y => (((hasDerivAt_id y).sub
      ((hasDerivAt_pow 3 y).div_const 6)).add
      ((hasDerivAt_pow 5 y).div_const 120)).sub (Real.hasDerivAt_sin y)
  have h := taylor_mono_aux key (fun y hy => by
    have hc := cos_le_t4 hy
    push_cast
    norm_num
    nlinarith [hc]) hx
  norm_num [Real.sin_zero] at h
  linarith

theorem cos_ge_t6 {x : ℝ} (hx : 0 ≤ x) :
    1 - x ^ 2 / 2 + x ^ 4 / 24 - x ^ 6 / 720 ≤ Real.cos x := by
  have key : ∀ y : ℝ, HasDerivAt
      (fun t => Real.cos t - (1 - t ^ 2 / 2 + t ^ 4 / 24 - t ^ 6 / 720))
      ((-Real.sin y) - (((0 - ((2 : ℕ) : ℝ) * y ^ (2 - 1) / 2) +
        ((4 : ℕ) : ℝ) * y ^ (4 - 1) / 24) -
        ((6 : ℕ) : ℝ) * y ^ (6 - 1) / 720)) y :=
    fun y => (Real.hasDerivAt_cos y).sub
      ((((hasDerivAt_const y (1 : ℝ)).sub
        ((hasDerivAt_pow 2 y).div_const 2)).add
        ((hasDerivAt_pow 4 y).div_const 24)).sub
        ((hasDerivAt_pow 6 y).div_const 720))
  have h := taylor_mono_aux key (fun y hy => by
    have hs := sin_le_t5 hy
    push_cast
    norm_num
    nlinarith [hs]) hx
  norm_num [Real.cos_zero] at h
  linarith

theorem sin_ge_t7 {x : ℝ} (hx : 0 ≤ x) :
    x - x ^ 3 / 6 + x ^ 5 / 120 - x ^ 7 / 5040 ≤ Real.sin x := by
  have key : ∀ y : ℝ, HasDerivAt
      (fun t => Real.sin t - (t - t ^ 3 / 6 + t ^ 5 / 120 - t ^ 7 / 5040))
      (Real.cos y - (((1 - ((3 : ℕ) : ℝ) * y ^ (3 - 1) / 6) +
        ((5 : ℕ) : ℝ) * y ^ (5 - 1) / 120) -
        ((7 : ℕ) : ℝ) * y ^ (7 - 1) / 5040)) y :=
    fun y => (Real.hasDerivAt_sin y).sub
      ((((hasDerivAt_id y).sub
        ((hasDerivAt_pow 3 y).div_const 6)).add
        ((hasDerivAt_pow 5 y).div_const 120)).sub
        ((hasDerivAt_pow 7 y).div_const 5040))
  have h := taylor_mono_aux key (fun y hy => by
    have hc := cos_ge_t6 hy
    push_cast
    norm_num
    nlinarith [hc]) hx
  norm_num [Real.sin_zero] at h
  linarith

theorem cos_le_t8 {x : ℝ} (hx : 0 ≤ x) :
    Real.cos x ≤ 1 - x ^ 2 / 2 + x ^ 4 / 24 - x ^ 6 / 720 + x ^ 8 / 40320 := by
  have key : ∀ y : ℝ, HasDerivAt
      (fun t => (1 - t ^ 2 / 2 + t ^ 4 / 24 - t ^ 6 / 720 + t ^ 8 / 40320) -
        Real.cos t)
      ((((0 - ((2 : ℕ) : ℝ) * y ^ (2 - 1) / 2) +
        ((4 : ℕ) : ℝ) * y ^ (4 - 1) / 24) -
        ((6 : ℕ) : ℝ) * y ^ (6 - 1) / 720 +
        ((8 : ℕ) : ℝ) * y ^ (8 - 1) / 40320) - (-Real.sin y)) y :=
    fun y => (((((hasDerivAt_const y (1 : ℝ)).sub
      ((hasDerivAt_pow 2 y).div_const 2)).add
      ((hasDerivAt_pow 4 y).div_const 24)).sub
      ((hasDerivAt_pow 6 y).div_const 720)).add
      ((hasDerivAt_pow 8 y).div_const 40320)).sub (Real.hasDerivAt_cos y)
  have h := taylor_mono_aux key (fun y hy => by
    have hs := sin_ge_t7 hy
    push_cast
    norm_num
    nlinarith [hs]) hx
  norm_num [Real.cos_zero] at h
  linarith

/-- A 13-digit lower bound for `e^π`, via a 29-term partial exponential sum
at a rational just below `π`. -/
theorem exp_pi_gt_lb : (23.140692632779 : ℝ) < Real.exp Real.pi := by
  have hsum := Real.sum_le_exp_of_nonneg
    (x := (3.14159265358979 : ℝ)) (by norm_num) 29
  have hmono : Real.exp (3.14159265358979 : ℝ) ≤ Real.exp Real.pi :=
    Real.exp_le_exp.mpr (by linarith [Real.pi_gt_d20])
  have hval : (23.140692632779 : ℝ) <
      ∑ i ∈ Finset.range 29, (3.14159265358979 : ℝ) ^ i / (i.factorial : ℝ) := by
    simp_rw [Finset.sum_range_succ, Nat.factorial_succ]
    norm_num [Nat.factorial]
  linarith

theorem max_angle_lt_half_pi :
    Real.pi * (425255643899 / 900000000000) < Real.pi / 2 := by
  have h := Real.pi_pos
  linarith

theorem cos_pos_of_le_angle {θ : ℝ} (h0 : 0 ≤ θ)
    (h1 : θ ≤ Real.pi * (425255643899 / 900000000000)) : 0 < Real.cos θ := by
  apply Real.cos_pos_of_mem_Ioo
  constructor
  · have := Real.pi_pos
    linarith
  · exact lt_of_le_of_lt h1 max_angle_lt_half_pi

theorem u_ge_one {θ : ℝ} (h0 : 0 ≤ θ)
    (h1 : θ ≤ Real.pi * (425255643899 / 900000000000)) :
    1 ≤ Real.tan θ + 1 / Real.cos θ := by
  have hcos := cos_pos_of_le_angle h0 h1
  have htan : 0 ≤ Real.tan θ :=
    Real.tan_nonneg_of_nonneg_of_le_pi_div_two h0
      (le_of_lt (lt_of_le_of_lt h1 max_angle_lt_half_pi))
  have hc1 : Real.cos θ ≤ 1 := Real.cos_le_one θ
  have : 1 ≤ 1 / Real.cos θ := by
    rw [le_div_iff hcos]
    linarith
  linarith

theorem u_le_endpoint {θ : ℝ} (h0 : 0 ≤ θ)
    (h1 : θ ≤ Real.pi * (425255643899 / 900000000000)) :
    Real.tan θ + 1 / Real.cos θ ≤
      Real.tan (Real.pi * (425255643899 / 900000000000)) +
        1 / Real.cos (Real.pi * (425255643899 / 900000000000)) := by
  have hpi := Real.pi_pos
  have hmemθ : θ ∈ Set.Ioo (-(Real.pi / 2)) (Real.pi / 2) :=
    ⟨by linarith, lt_of_le_of_lt h1 max_angle_lt_half_pi⟩
  have hmemE : Real.pi * (425255643899 / 900000000000) ∈
      Set.Ioo (-(Real.pi / 2)) (Real.pi / 2) :=
    ⟨by linarith, max_angle_lt_half_pi⟩
  have htan : Real.tan θ ≤ Real.tan (Real.pi * (425255643899 / 900000000000)) :=
    Real.strictMonoOn_tan.monotoneOn hmemθ hmemE h1
  have hcosE : 0 < Real.cos (Real.pi * (425255643899 / 900000000000)) :=
    cos_pos_of_le_angle (by linarith) (le_refl _)
  have hcos : Real.cos (Real.pi * (425255643899 / 900000000000)) ≤ Real.cos θ :=
    Real.strictAntiOn_cos.antitoneOn
      ⟨h0, by linarith⟩
      ⟨by linarith, by linarith⟩ h1
  have hinv : 1 / Real.cos θ ≤
      1 / Real.cos (Real.pi * (425255643899 / 900000000000)) :=
    one_div_le_one_div_of_le hcosE hcos
  linarith

theorem endpoint_lt_exp_pi :
    Real.tan (Real.pi * (425255643899 / 900000000000)) +
      1 / Real.cos (Real.pi * (425255643899 / 900000000000)) <
      Real.exp Real.pi := by
  have hpi := Real.pi_pos
  have hpl := Real.pi_gt_d20
  have hpu := Real.pi_lt_d20
  -- complementary half-angle `a`: the endpoint angle is `π/2 - 2a`
  set a : ℝ := Real.pi * (24744356101 / 1800000000000) with ha_def
  have hθa : Real.pi * (425255643899 / 900000000000) =
      Real.pi / 2 - 2 * a := by
    rw [ha_def]
    ring
  have ha_lo : (3.14159265358979323846 : ℝ) * (24744356101 / 1800000000000) ≤
      a := by
    rw [ha_def]
    exact mul_le_mul_of_nonneg_right (le_of_lt hpl) (by norm_num)
  have ha_hi : a ≤
      (3.14159265358979323847 : ℝ) * (24744356101 / 1800000000000) := by
    rw [ha_def]
    exact mul_le_mul_of_nonneg_right (le_of_lt hpu) (by norm_num)
  have ha_pos : 0 < a := by
    rw [ha_def]
    positivity
  have ha_lt : a < Real.pi / 2 := by
    rw [ha_def]
    linarith
  have hsin_pos : 0 < Real.sin a :=
    Real.sin_pos_of_pos_of_lt_pi ha_pos (by linarith)
  have hcos_pos : 0 < Real.cos a :=
    Real.cos_pos_of_mem_Ioo ⟨by linarith, ha_lt⟩
  have hid : Real.tan (Real.pi * (425255643899 / 900000000000)) +
      1 / Real.cos (Real.pi * (425255643899 / 900000000000)) =
      Real.cos a / Real.sin a := by
    rw [hθa, Real.tan_eq_sin_div_cos, Real.sin_pi_div_two_sub,
      Real.cos_pi_div_two_sub, Real.cos_two_mul, Real.sin_two_mul]
    have h1 : Real.sin a ≠ 0 := ne_of_gt hsin_pos
    have h2 : Real.cos a ≠ 0 := ne_of_gt hcos_pos
    field_simp
    ring
  rw [hid]
  -- rational Taylor bounds at `a`
  have hs_lb : (3.14159265358979323846 : ℝ) * (24744356101 / 1800000000000) -
      ((3.14159265358979323847 : ℝ) * (24744356101 / 1800000000000)) ^ 3 / 6 +
      ((3.14159265358979323846 : ℝ) * (24744356101 / 1800000000000)) ^ 5 / 120 -
      ((3.14159265358979323847 : ℝ) * (24744356101 / 1800000000000)) ^ 7 / 5040
      ≤ Real.sin a := by
    have ht := sin_ge_t7 (le_of_lt ha_pos)
    have h3 : a ^ 3 ≤
        ((3.14159265358979323847 : ℝ) * (24744356101 / 1800000000000)) ^ 3 :=
      pow_le_pow_left (le_of_lt ha_pos) ha_hi 3
    have h5 : ((3.14159265358979323846 : ℝ) *
        (24744356101 / 1800000000000)) ^ 5 ≤ a ^ 5 :=
      pow_le_pow_left (by norm_num) ha_lo 5
    have h7 : a ^ 7 ≤
        ((3.14159265358979323847 : ℝ) * (24744356101 / 1800000000000)) ^ 7 :=
      pow_le_pow_left (le_of_lt ha_pos) ha_hi 7
    linarith
  have hc_ub : Real.cos a ≤
      1 - ((3.14159265358979323846 : ℝ) * (24744356101 / 1800000000000)) ^ 2 / 2 +
      ((3.14159265358979323847 : ℝ) * (24744356101 / 1800000000000)) ^ 4 / 24 -
      ((3.14159265358979323846 : ℝ) * (24744356101 / 1800000000000)) ^ 6 / 720 +
      ((3.14159265358979323847 : ℝ) * (24744356101 / 1800000000000)) ^ 8 / 40320
      := by
    have ht := cos_le_t8 (le_of_lt ha_pos)
    have h2 : ((3.14159265358979323846 : ℝ) *
        (24744356101 / 1800000000000)) ^ 2 ≤ a ^ 2 :=
      pow_le_pow_left (by norm_num) ha_lo 2
    have h4 : a ^ 4 ≤
        ((3.14159265358979323847 : ℝ) * (24744356101 / 1800000000000)) ^ 4 :=
      pow_le_pow_left (le_of_lt ha_pos) ha_hi 4
    have h6 : ((3.14159265358979323846 : ℝ) *
        (24744356101 / 1800000000000)) ^ 6 ≤ a ^ 6 :=
      pow_le_pow_left (by norm_num) ha_lo 6
    have h8 : a ^ 8 ≤
        ((3.14159265358979323847 : ℝ) * (24744356101 / 1800000000000)) ^ 8 :=
      pow_le_pow_left (le_of_lt ha_pos) ha_hi 8
    linarith
  have hSlo_pos : (0 : ℝ) <
      (3.14159265358979323846 : ℝ) * (24744356101 / 1800000000000) -
      ((3.14159265358979323847 : ℝ) * (24744356101 / 1800000000000)) ^ 3 / 6 +
      ((3.14159265358979323846 : ℝ) * (24744356101 / 1800000000000)) ^ 5 / 120 -
      ((3.14159265358979323847 : ℝ) * (24744356101 / 1800000000000)) ^ 7 / 5040
      := by
    norm_num
  have hfrac : Real.cos a / Real.sin a ≤
      (1 - ((3.14159265358979323846 : ℝ) * (24744356101 / 1800000000000)) ^ 2 / 2 +
      ((3.14159265358979323847 : ℝ) * (24744356101 / 1800000000000)) ^ 4 / 24 -
      ((3.14159265358979323846 : ℝ) * (24744356101 / 1800000000000)) ^ 6 / 720 +
      ((3.14159265358979323847 : ℝ) * (24744356101 / 1800000000000)) ^ 8 / 40320) /
      ((3.14159265358979323846 : ℝ) * (24744356101 / 1800000000000) -
      ((3.14159265358979323847 : ℝ) * (24744356101 / 1800000000000)) ^ 3 / 6 +
      ((3.14159265358979323846 : ℝ) * (24744356101 / 1800000000000)) ^ 5 / 120 -
      ((3.14159265358979323847 : ℝ) * (24744356101 / 1800000000000)) ^ 7 / 5040)
      := by
    apply div_le_div (by norm_num) hc_ub hSlo_pos hs_lb
  have hrat : (1 - ((3.14159265358979323846 : ℝ) *
        (24744356101 / 1800000000000)) ^ 2 / 2 +
      ((3.14159265358979323847 : ℝ) * (24744356101 / 1800000000000)) ^ 4 / 24 -
      ((3.14159265358979323846 : ℝ) * (24744356101 / 1800000000000)) ^ 6 / 720 +
      ((3.14159265358979323847 : ℝ) * (24744356101 / 1800000000000)) ^ 8 / 40320) /
      ((3.14159265358979323846 : ℝ) * (24744356101 / 1800000000000) -
      ((3.14159265358979323847 : ℝ) * (24744356101 / 1800000000000)) ^ 3 / 6 +
      ((3.14159265358979323846 : ℝ) * (24744356101 / 1800000000000)) ^ 5 / 120 -
      ((3.14159265358979323847 : ℝ) * (24744356101 / 1800000000000)) ^ 7 / 5040)
      < (23.140692632779 : ℝ) := by
    rw [div_lt_iff hSlo_pos]
    norm_num
  have hexp := exp_pi_gt_lb
  linarith

/-- Product identity: the mercator factor at `-θ` is the reciprocal of the
one at `θ`. -/
theorem u_neg_mul {θ : ℝ} (hc : Real.cos θ ≠ 0) :
    (Real.tan (-θ) + 1 / Real.cos (-θ)) * (Real.tan θ + 1 / Real.cos θ) = 1 := by
  rw [Real.tan_neg, Real.cos_neg, Real.tan_eq_sin_div_cos]
  have hpyth := Real.sin_sq_add_cos_sq θ
  field_simp
  linear_combination (-Real.cos θ) * hpyth

/-- The mercator factor `tan r + 1/cos r` lies in `(e^{-π}, e^{π}]` whenever
`|r| ≤ π · 85.0511287798/180` (i.e. `|lat| ≤ MAX_LAT`). -/
theorem u_bounds {θ : ℝ} (h : |θ| ≤ Real.pi * (425255643899 / 900000000000)) :
    Real.exp (-Real.pi) < Real.tan θ + 1 / Real.cos θ ∧
    Real.tan θ + 1 / Real.cos θ ≤ Real.exp Real.pi := by
  have hpi := Real.pi_pos
  rcases le_or_lt 0 θ with hθ | hθ
  · have hle : θ ≤ Real.pi * (425255643899 / 900000000000) :=
      le_trans (le_abs_self θ) h
    have h1 := u_ge_one hθ hle
    have h2 := le_trans (u_le_endpoint hθ hle) (le_of_lt endpoint_lt_exp_pi)
    refine ⟨lt_of_lt_of_le ?_ h1, h2⟩
    rw [Real.exp_lt_one_iff]
    linarith
  · set φ := -θ with hφ_def
    have hφ0 : 0 < φ := by rw [hφ_def]; linarith
    have hφle : φ ≤ Real.pi * (425255643899 / 900000000000) := by
      have : |θ| = φ := abs_of_neg hθ
      linarith [h, this.symm.le, this.le]
    have hcosφ : 0 < Real.cos φ := cos_pos_of_le_angle (le_of_lt hφ0) hφle
    have h1φ := u_ge_one (le_of_lt hφ0) hφle
    have h2φ := lt_of_le_of_lt (u_le_endpoint (le_of_lt hφ0) hφle)
      endpoint_lt_exp_pi
    have hθφ : θ = -φ := by rw [hφ_def]; ring
    have hprod : (Real.tan θ + 1 / Real.cos θ) *
        (Real.tan φ + 1 / Real.cos φ) = 1 := by
      rw [hθφ]
      exact u_neg_mul (ne_of_gt hcosφ)
    have huφpos : 0 < Real.tan φ + 1 / Real.cos φ := by linarith
    have huθ : Real.tan θ + 1 / Real.cos θ =
        1 / (Real.tan φ + 1 / Real.cos φ) :=
      eq_one_div_of_mul_eq_one_left hprod
    constructor
    · rw [huθ, Real.exp_neg, inv_eq_one_div]
      exact one_div_lt_one_div_of_lt huφpos h2φ
    · rw [huθ]
      have hle1 : 1 / (Real.tan φ + 1 / Real.cos φ) ≤ 1 := by
        rw [div_le_one huφpos]
        exact h1φ
      exact le_trans hle1 (Real.one_le_exp (le_of_lt hpi))

/-- At zoom 0, `deg2num` sends any point with `lon ∈ [-180, 180)` and
`|lat| ≤ MAX_LAT` to tile coordinates `(0, 0)`. -/
theorem deg2num_zoom0 (lat lon : ℝ) (hlon1 : -180 ≤ lon) (hlon2 : lon < 180)
    (hlat : |lat| ≤ MAX_LAT) : deg2num lat lon 0 = (0, 0) := by
  have hpi := Real.pi_pos
  simp only [deg2num]
  have hθ : |Real.pi * lat / 180| ≤
      Real.pi * (425255643899 / 900000000000) := by
    rw [abs_div, abs_mul, abs_of_pos hpi,
      abs_of_pos (show (0:ℝ) < 180 by norm_num),
      div_le_iff (show (0:ℝ) < 180 by norm_num)]
    have hml : MAX_LAT = (425255643899 / 900000000000 : ℝ) * 180 := by
      norm_num [MAX_LAT]
    have hm : Real.pi * |lat| ≤ Real.pi * ((425255643899 / 900000000000) * 180) := by
      rw [← hml]
      exact mul_le_mul_of_nonneg_left hlat (le_of_lt hpi)
    linarith
  obtain ⟨hlo, hhi⟩ := u_bounds hθ
  have hupos : 0 < Real.tan (Real.pi * lat / 180) +
      1 / Real.cos (Real.pi * lat / 180) := lt_trans (Real.exp_pos _) hlo
  have hlog1 : Real.log (Real.tan (Real.pi * lat / 180) +
      1 / Real.cos (Real.pi * lat / 180)) ≤ Real.pi :=
    (Real.log_le_iff_le_exp hupos).mpr hhi
  have hlog2 : -Real.pi < Real.log (Real.tan (Real.pi * lat / 180) +
      1 / Real.cos (Real.pi * lat / 180)) :=
    (Real.lt_log_iff_exp_lt hupos).mpr hlo
  have hx : ⌊(lon + 180) / 360 * ((2:ℝ) ^ (0:ℕ))⌋ = 0 := by
    rw [pow_zero, mul_one, Int.floor_eq_zero_iff]
    constructor
    · apply div_nonneg (by linarith) (by norm_num)
    · rw [div_lt_one (by norm_num : (0:ℝ) < 360)]
      linarith
  have hy : ⌊(1 - Real.log (Real.tan (Real.pi * lat / 180) +
      1 / Real.cos (Real.pi * lat / 180)) / Real.pi) / 2 *
        ((2:ℝ) ^ (0:ℕ))⌋ = 0 := by
    rw [pow_zero, mul_one, Int.floor_eq_zero_iff]
    have hd1 : Real.log (Real.tan (Real.pi * lat / 180) +
        1 / Real.cos (Real.pi * lat / 180)) / Real.pi ≤ 1 := by
      rw [div_le_one hpi]
      exact hlog1
    have hd2 : -1 < Real.log (Real.tan (Real.pi * lat / 180) +
        1 / Real.cos (Real.pi * lat / 180)) / Real.pi := by
      rw [lt_div_iff hpi]
      linarith
    constructor
    · linarith
    · linarith
  rw [hx, hy]
  simp [sat_u32]

/-- C4 (amended): for every bounding box whose longitudes lie in
`[-180, 180)` and whose latitudes satisfy `|lat| ≤ MAX_LAT` (the source's
clamp `85.0511287798`, so every latitude the loader ever passes),
`get_tiles_for_bounding_box(bbox, 0, max_z)` yields at zoom level 0 exactly
the single tile `(0, 0, 0)`.  Only the longitude restriction amends the
original claim, forced by its boundary: at `lon = 180` (a valid clamped
coordinate) the floor computation lands in tile column 1 — see the
counterexample. -/
theorem claim_C4 (bbox : BoundingBox ℝ) (max_z : ℕ)
    (h1 : -180 ≤ bbox.min.lon) (h2 : bbox.min.lon < 180)
    (h3 : -180 ≤ bbox.max.lon) (h4 : bbox.max.lon < 180)
    (h5 : |bbox.min.lat| ≤ MAX_LAT) (h6 : |bbox.max.lat| ≤ MAX_LAT) :
    (get_tiles_for_bounding_box bbox 0 max_z).filter (fun t => t.z == 0) =
      [Tile.mk 0 0 0] := by
  have hc1 : deg2num bbox.max.lat bbox.min.lon 0 = (0, 0) :=
    deg2num_zoom0 _ _ h1 h2 h6
  have hc2 : deg2num bbox.min.lat bbox.max.lon 0 = (0, 0) :=
    deg2num_zoom0 _ _ h3 h4 h5
  unfold get_tiles_for_bounding_box
  have hrange : List.range' 0 (max_z + 1 - 0) = 0 :: List.range' 1 max_z := by
    rw [Nat.sub_zero, List.range'_succ]
  rw [hrange, List.flatMap_cons, List.filter_append]
  have hrest : ((List.range' 1 max_z).flatMap fun z =>
      let c1 := deg2num bbox.max.lat bbox.min.lon z
      let c2 := deg2num bbox.min.lat bbox.max.lon z
      (List.range' c1.1 (c2.1 + 1 - c1.1)).flatMap fun x =>
        (List.range' c1.2 (c2.2 + 1 - c1.2)).map fun y =>
          Tile.mk x y z).filter (fun t => t.z == 0) = [] := by
    rw [List.filter_eq_nil_iff]
    intro t ht
    simp only [List.mem_flatMap, List.mem_map] at ht
    obtain ⟨z, hz, x, hx, y, hy, rfl⟩ := ht
    have hz1 : 1 ≤ z := by
      have := List.mem_range'_1.mp hz
      omega
    simp only [beq_iff_eq]
    omega
  rw [hrest, List.append_nil]
  simp only [hc1, hc2]
  norm_num [List.range'_one]

/-- Witness for C4 at the degenerate box `(0,0)-(0,0)` and `max_z = 2`. -/
theorem claim_C4_witness :
    ((-180 : ℝ) ≤ 0 ∧ (0 : ℝ) < 180 ∧ |(0 : ℝ)| ≤ MAX_LAT) ∧
    (get_tiles_for_bounding_box ⟨⟨0, 0⟩, ⟨0, 0⟩⟩ 0 2).filter
        (fun t => t.z == 0) = [Tile.mk 0 0 0] :=
  ⟨⟨by norm_num, by norm_num, by norm_num [MAX_LAT]⟩,
   claim_C4 ⟨⟨0, 0⟩, ⟨0, 0⟩⟩ 2 (by norm_num) (by norm_num) (by norm_num)
     (by norm_num) (by norm_num [MAX_LAT]) (by norm_num [MAX_LAT])⟩

/-- Counterexample to C4 as stated: the degenerate bounding box at
`lon = 180, lat = 0` — finite, already-clamped geographic coordinates — is
sent by `deg2num` at zoom 0 to tile column 1 (`⌊(180+180)/360⌋ = 1`), so the
zoom-0 slice is `[(1,0,0)]`, not `[(0,0,0)]`. -/
theorem claim_C4_counterexample :
    (get_tiles_for_bounding_box ⟨⟨180, 0⟩, ⟨180, 0⟩⟩ 0 0).filter
        (fun t => t.z == 0) ≠ [Tile.mk 0 0 0] := by
  have hpi := Real.pi_pos
  have hd : deg2num (0 : ℝ) (180 : ℝ) 0 = (1, 0) := by
    simp only [deg2num]
    have hzero : Real.pi * 0 / 180 = 0 := by ring
    rw [hzero, Real.tan_zero, Real.cos_zero]
    have hx : ⌊((180 : ℝ) + 180) / 360 * ((2:ℝ) ^ (0:ℕ))⌋ = 1 := by
      norm_num
    have hy : ⌊(1 - Real.log (0 + 1 / 1) / Real.pi) / 2 * ((2:ℝ) ^ (0:ℕ))⌋
        = 0 := by
      have h11 : (0 : ℝ) + 1 / 1 = 1 := by norm_num
      rw [h11, Real.log_one, zero_div, sub_zero, pow_zero, mul_one,
        Int.floor_eq_zero_iff]
      rw [Set.mem_Ico]
      constructor <;> norm_num
    rw [hx, hy]
    simp [sat_u32]
  unfold get_tiles_for_bounding_box
  norm_num [hd, List.range'_one, List.flatMap_cons, List.flatMap_nil,
    List.append_nil]

/-! ### Claim C5: which tiles a way is indexed under -/

theorem foldl_skip_eq_filter (imp : Bool) (offset : ℕ) (l : List Tile) :
    ∀ acc : TileIndex,
      l.foldl
        (fun acc tile =>
          if imp = false ∧ tile.z < 11 then acc else acc.insert tile offset)
        acc =
      (l.filter fun t => imp || decide (11 ≤ t.z)).foldl
        (fun acc t => acc.insert t offset) acc := by
  induction l with
  | nil => intro acc; rfl
  | cons t rest ih =>
      intro acc
      by_cases h : imp = false ∧ t.z < 11
      · have hp : (imp || decide (11 ≤ t.z)) = false := by
          obtain ⟨hi, hz⟩ := h
          subst hi
          simp only [Bool.false_or, decide_eq_false_iff_not]
          omega
        simp only [List.foldl_cons, if_pos h, List.filter_cons, hp,
          Bool.false_eq_true, if_false]
        exact ih acc
      · have hp : (imp || decide (11 ≤ t.z)) = true := by
          rcases Bool.eq_false_or_eq_true imp with hi | hi
          · subst hi
            simp
          · subst hi
            simp only [Bool.false_or, decide_eq_true_eq]
            by_contra hc
            exact h ⟨rfl, by omega⟩
        simp only [List.foldl_cons, if_neg h, List.filter_cons, hp, if_true]
        exact ih _

/-- C5: a way with a non-empty point list has its offset inserted into
exactly the tiles of `get_tiles_for_bounding_box(bbox, 0, max_z)` whose zoom
is ≥ 11, plus those of zoom < 11 when and only when the way is an important
(major-road) way; i.e. the loop with its skip is the plain insertion fold
over exactly that filtered tile list. -/
theorem claim_C5 (ti : TileIndex) (points : List (Point ℝ))
    (tags : List (String × String)) (offset max_z : ℕ)
    (hne : points ≠ []) (bb : BoundingBox ℝ)
    (hbb : BoundingBox.from_points points = some bb) :
    process_way ti points tags offset max_z =
      ((get_tiles_for_bounding_box bb 0 max_z).filter
          (fun t => is_important_way tags || decide (11 ≤ t.z))).foldl
        (fun acc t => acc.insert t offset)
        (ti.update_max_points points.length) ∧
    ∀ t : Tile,
      t ∈ (get_tiles_for_bounding_box bb 0 max_z).filter
          (fun t => is_important_way tags || decide (11 ≤ t.z)) ↔
        t ∈ get_tiles_for_bounding_box bb 0 max_z ∧
          (is_important_way tags = true ∨ 11 ≤ t.z) := by
  constructor
  · unfold process_way
    rw [if_neg (by simpa [List.isEmpty_iff] using hne)]
    simp only [hbb]
    exact foldl_skip_eq_filter (is_important_way tags) offset
      (get_tiles_for_bounding_box bb 0 max_z)
      (ti.update_max_points points.length)
  · intro t
    simp only [List.mem_filter, Bool.or_eq_true, decide_eq_true_eq]

/-- Witness for C5: a one-point motorway way at `(0, 0)`. -/
theorem claim_C5_witness :
    ([Point.mk (0:ℝ) 0] ≠ []) ∧
    BoundingBox.from_points [Point.mk (0:ℝ) 0] = some ⟨⟨0, 0⟩, ⟨0, 0⟩⟩ ∧
    process_way TileIndex.new [Point.mk (0:ℝ) 0] [("highway", "motorway")]
        5 3 =
      ((get_tiles_for_bounding_box ⟨⟨0, 0⟩, ⟨0, 0⟩⟩ 0 3).filter
          (fun t => is_important_way [("highway", "motorway")] ||
            decide (11 ≤ t.z))).foldl
        (fun acc t => acc.insert t 5)
        (TileIndex.new.update_max_points [Point.mk (0:ℝ) 0].length) := by
  have hbb : BoundingBox.from_points [Point.mk (0:ℝ) 0] =
      some ⟨⟨0, 0⟩, ⟨0, 0⟩⟩ := by
    unfold BoundingBox.from_points
    simp only [List.isEmpty_cons, List.foldl_cons, List.foldl_nil,
      Bool.false_eq_true, if_false]
    have hfp : (0 : ℝ) ≤ f64_max := by
      unfold f64_max
      norm_num
    have h1 : Min.min f64_max (0 : ℝ) = 0 := min_eq_right hfp
    have h2 : Max.max (-f64_max) (0 : ℝ) = 0 := max_eq_right (by linarith)
    rw [h1, h2]
  exact ⟨by simp, hbb,
    (claim_C5 TileIndex.new [Point.mk (0:ℝ) 0] [("highway", "motorway")] 5 3
      (by simp) ⟨⟨0, 0⟩, ⟨0, 0⟩⟩ hbb).1⟩

end OsmRender
